import Mathlib

/-!
Verification of the MakeSalesLegendary lead-scoring backend.

This file gives a shallow embedding of the pure/algorithmic parts of
  - `backend/app/services/extraction.py` (extraction quality, sanitization),
  - `backend/app/services/dedup.py` (name normalization, KvK merge),
  - `backend/app/services/scoring.py` (the scoring engine),
and proves the behavioural properties claimed in the specification.

Modelling conventions:
  * Python floats are modelled as `ℚ`; `round(x, 1)` is modelled as
    round-half-up on tenths (CPython rounds half to even on the binary
    float nearest the decimal; no claim here depends on exact halves).
  * `datetime` instants are modelled as an integer number of seconds;
    `timedelta.days` floors towards -∞, i.e. `Int.fdiv · 86400`.
  * JSON values stored in `extracted_data` / config blobs are modelled by
    the inductive type `JVal`.
  * Python dicts are modelled as association lists in insertion order
    (CPython ≥3.7 preserves insertion order).
  * Strings are treated as ASCII for case folding (`str.lower`) and the
    regex `\b` word boundary; all name data and patterns in the repository
    are ASCII.
-/

set_option maxRecDepth 10000

/-! ### Character-level string primitives (Python `str` methods, `re` pieces) -/

/-- Python's whitespace class (`str.strip` / regex `\s`), ASCII part:
space, tab, newline, carriage return, vertical tab, form feed. -/
def pyIsWs (c : Char) : Bool :=
  c == ' ' || c == '\t' || c == '\n' || c == '\r' || c == '\x0b' || c == '\x0c'

/-- The uppercase→lowercase table of ASCII case folding. -/
def LOWER_MAP : List (Char × Char) :=
  [('A', 'a'), ('B', 'b'), ('C', 'c'), ('D', 'd'), ('E', 'e'), ('F', 'f'),
   ('G', 'g'), ('H', 'h'), ('I', 'i'), ('J', 'j'), ('K', 'k'), ('L', 'l'),
   ('M', 'm'), ('N', 'n'), ('O', 'o'), ('P', 'p'), ('Q', 'q'), ('R', 'r'),
   ('S', 's'), ('T', 't'), ('U', 'u'), ('V', 'v'), ('W', 'w'), ('X', 'x'),
   ('Y', 'y'), ('Z', 'z')]

/-- ASCII model of Python `str.lower` on a single character (the name data
and all patterns in the repository are ASCII). -/
def pyLower (c : Char) : Char :=
  match LOWER_MAP.find? (fun p => p.1 == c) with
  | some p => p.2
  | none => c

/-- Python `str.strip()` on a character list: drop leading and trailing
whitespace. -/
def pyStrip (l : List Char) : List Char :=
  ((l.dropWhile pyIsWs).reverse.dropWhile pyIsWs).reverse

/-- Python `str.strip()` on a `String`. -/
def pyStripStr (s : String) : String :=
  String.mk (pyStrip s.data)

/-- Regex word character (`\w`), ASCII part: letters, digits, underscore. -/
def isWordChar (c : Char) : Bool :=
  ('a' ≤ c && c ≤ 'z') || ('A' ≤ c && c ≤ 'Z') || ('0' ≤ c && c ≤ '9') || c == '_'

/-- Substring test: Python's `needle in haystack` on strings. -/
def strContains (haystack needle : String) : Bool :=
  decide (needle.data <:+: haystack.data)

/-! ### JSON-like values -/

/-- JSON-like values as they occur in `extracted_data`, scoring breakdowns
and config blobs: `None`/`null`, booleans, integers, strings, lists and
objects. -/
inductive JVal where
  | null
  | bool (b : Bool)
  | num (n : Int)
  | str (s : String)
  | list (xs : List JVal)
  | obj (fields : List (String × JVal))

/-- Model of Python `str(v)` for the value shapes that actually flow through
the services (scalars and flat lists of scalars). -/
def pyStr : JVal → String
  | .null => "None"
  | .bool b => if b then "True" else "False"
  | .num n => toString n
  | .str s => s
  | .list xs => "[" ++ String.intercalate ", " (xs.attach.map (fun v => pyStr v.1)) ++ "]"
  | .obj _ => "{-}"
decreasing_by
  have := List.sizeOf_lt_of_mem v.2
  simp at *
  omega

/-- Structural equality test on `JVal` (Python `==` restricted to the JSON
fragment we model). Used only inside executable definitions. -/
def JVal.beq : JVal → JVal → Bool
  | .null, .null => true
  | .bool a, .bool b => a == b
  | .num a, .num b => a == b
  | .str a, .str b => a == b
  | .list [], .list [] => true
  | .list (x :: xs), .list (y :: ys) => JVal.beq x y && JVal.beq (.list xs) (.list ys)
  | .obj [], .obj [] => true
  | .obj ((k1, v1) :: xs), .obj ((k2, v2) :: ys) =>
      k1 == k2 && JVal.beq v1 v2 && JVal.beq (.obj xs) (.obj ys)
  | _, _ => false
termination_by a _ => sizeOf a
decreasing_by all_goals (simp <;> omega)

instance : BEq JVal := ⟨JVal.beq⟩

/-- Python truthiness on `JVal`: `None`, `False`, `0`, `""`, `[]`, `{}` are
falsy, everything else truthy. -/
def jTruthy : JVal → Bool
  | .null => false
  | .bool b => b
  | .num n => n != 0
  | .str s => s != ""
  | .list xs => !xs.isEmpty
  | .obj fs => !fs.isEmpty

/-- `v is None` in Python terms (our `null` stands for Python `None`). -/
def JVal.isNull : JVal → Bool
  | .null => true
  | _ => false

/-- `d.get(k)` on a dict modelled as an association list: `JVal.null` stands
for both an absent key and a stored JSON `null` (Python `None` in both
cases). -/
def dget (d : List (String × JVal)) (k : String) : JVal :=
  match d.find? (fun p => p.1 == k) with
  | some p => p.2
  | none => .null

@[simp]
theorem dget_nil (k : String) : dget [] k = .null := rfl

@[simp]
theorem dget_cons (k' : String) (v : JVal) (d : List (String × JVal)) (k : String) :
    dget ((k', v) :: d) k = if k' = k then v else dget d k := by
  by_cases h : k' = k
  · simp [dget, List.find?, h]
  · have hb : (k' == k) = false := beq_eq_false_iff_ne.mpr h
    simp [dget, List.find?, h, hb]

/-! ### `extraction.py`: quality and sanitization -/

/-- The test `value is not None and value != "" and value != []` from
`compute_extraction_quality` (non-string, non-list values compare unequal
to both `""` and `[]` in Python). -/
def isExtractedValue : JVal → Bool
  | .null => false
  | .str s => s != ""
  | .list xs => !xs.isEmpty
  | _ => true

/-- `compute_extraction_quality` from `extraction.py`: the fraction of schema
fields whose extracted value is neither `None` nor `""` nor `[]`.
`schema` is the extraction schema dict; only its key list matters. -/
def compute_extraction_quality (extracted_data : List (String × JVal))
    (schema : List (String × String)) : ℚ :=
  if schema.isEmpty then 0
  else
    let extracted_count := schema.countP (fun p => isExtractedValue (dget extracted_data p.1))
    (extracted_count : ℚ) / (schema.length : ℚ)

/-- `ExtractionService._sanitize_extraction`: keep exactly the schema's
fields; lists become string lists with `None` elements dropped; non-empty
strings are kept whitespace-stripped (Python `value.strip() if value else
None`); everything else becomes `null`. -/
def sanitize_extraction (extracted : List (String × JVal))
    (schema : List (String × String)) : List (String × JVal) :=
  schema.map (fun p =>
    let value := dget extracted p.1
    (p.1,
      match value with
      | .list xs => .list ((xs.filter (fun v => !v.isNull)).map (fun v => .str (pyStr v)))
      | .str s => if s != "" then .str (pyStripStr s) else .null
      | _ => .null))

/-! ### `dedup.py`: company-name normalization

The regex `_LEGAL_SUFFIXES = \b(b\.?v\.?|n\.?v\.?|gmbh|ltd\.?|inc\.?|llc|s\.?a\.?|s\.?r\.?l\.?)\s*$`
(IGNORECASE) is anchored at the end of the string, so `re.sub` removes at
most one match: the string is truncated at the leftmost position that lies
on a `\b` word boundary and from which one of the alternatives, followed by
only whitespace, reaches the end. The optional dots are enumerated as
explicit expansions of each alternative. -/

/-- All expansions of the `_LEGAL_SUFFIXES` alternatives with each optional
dot either present or absent (lowercase; matching is case-insensitive). -/
def LEGAL_SUFFIX_EXPANSIONS : List String :=
  ["bv", "b.v", "bv.", "b.v.",
   "nv", "n.v", "nv.", "n.v.",
   "gmbh",
   "ltd", "ltd.",
   "inc", "inc.",
   "llc",
   "sa", "s.a", "sa.", "s.a.",
   "srl", "s.rl", "sr.l", "srl.", "s.r.l", "s.rl.", "sr.l.", "s.r.l."]

/-- Does the expansion `e` match a prefix of `l` (case-insensitively), with
the remainder of `l` being only whitespace (the `\s*$` tail)? -/
def matchSuffix : List Char → List Char → Bool
  | [], rest => rest.all pyIsWs
  | _ :: _, [] => false
  | a :: es, c :: cs => pyLower c == a && matchSuffix es cs

/-- Does some legal-suffix alternative match at the start of `l` and reach
the end of the string through whitespace? -/
def suffixMatchAt (l : List Char) : Bool :=
  LEGAL_SUFFIX_EXPANSIONS.any (fun e => matchSuffix e.data l)

/-- Scan for the leftmost word-boundary position where a legal suffix
matches to the end of the string, and truncate there (`re.sub(pattern, "")`
with an end-anchored pattern). `atB` records whether the current position
is a `\b` boundary, i.e. the previous character (if any) is a non-word
character (all alternatives begin with a word character). -/
def suffixStripAux : List Char → Bool → List Char
  | [], _ => []
  | c :: cs, atB =>
      if atB && suffixMatchAt (c :: cs) then []
      else c :: suffixStripAux cs (!isWordChar c)

/-- `_LEGAL_SUFFIXES.sub("", name)`. -/
def suffixStrip (l : List Char) : List Char :=
  suffixStripAux l true

/-- The noise-character class `_NOISE_CHARS = [&\-.,/\\|()"']`. -/
def isNoiseChar (c : Char) : Bool :=
  c == '&' || c == '-' || c == '.' || c == ',' || c == '/' || c == '\\' ||
  c == '|' || c == '(' || c == ')' || c == '"' || c == '\''

/-- `_NOISE_CHARS.sub(" ", name)`: replace each noise character by a space. -/
def noiseMap (c : Char) : Char :=
  if isNoiseChar c then ' ' else c

/-- `re.sub(r"\s+", " ", name)`: replace each maximal whitespace run by a
single space. The flag records whether we are inside a whitespace run. -/
def wsCollapseAux : Bool → List Char → List Char
  | _, [] => []
  | inRun, c :: cs =>
      if pyIsWs c then
        if inRun then wsCollapseAux true cs else ' ' :: wsCollapseAux true cs
      else c :: wsCollapseAux false cs

/-- `re.sub(r"\s+", " ", name)`. -/
def wsCollapse (l : List Char) : List Char :=
  wsCollapseAux false l

/-- `normalize_company_name` from `dedup.py`, on character lists:
strip, return `""` for an empty result, lowercase, strip one end-anchored
legal suffix, replace noise characters by spaces, collapse whitespace,
strip again. -/
def normalizeChars (l : List Char) : List Char :=
  let name := pyStrip l
  if name.isEmpty then []
  else pyStrip (wsCollapse ((suffixStrip (name.map pyLower)).map noiseMap))

/-- `normalize_company_name` from `dedup.py`. -/
def normalize_company_name (s : String) : String :=
  String.mk (normalizeChars s.data)

/-! ### Shared string/number helpers for the scoring engine -/

/-- ASCII model of Python `str.lower` on a `String`. -/
def strLower (s : String) : String :=
  String.mk (s.data.map pyLower)

/-- Python `needle in haystack` substring test, executably: some suffix of
the haystack starts with the needle. -/
def strContainsSub : List Char → List Char → Bool
  | needle, [] => needle.isEmpty
  | needle, h :: t => List.isPrefixOf needle (h :: t) || strContainsSub needle t

/-- Python `haystack.startswith(needle)`. -/
def strStartsWith (s pre : String) : Bool :=
  List.isPrefixOf pre.data s.data

/-- Python `round(x, 1)` on our rational model: round half up on tenths
(CPython rounds the nearest binary float half to even; no property proved
here depends on exact halves). -/
def pyRound1 (q : ℚ) : ℚ :=
  ((⌊q * 10 + 1 / 2⌋ : ℤ) : ℚ) / 10

/-- `timedelta.days` of the difference of two instants given in seconds:
floor division by 86400. -/
def daysBetween (a b : Int) : Int :=
  Int.fdiv (a - b) 86400

/-- Lookup in a string-keyed dict of numbers (`d.get(k)`), as used for
threshold/score tables and `timing_signals`. -/
def tableGet (t : List (String × ℚ)) (k : String) : Option ℚ :=
  (t.find? (fun p => p.1 == k)).map (fun p => p.2)

/-- `key in d` on our association-list dicts. -/
def dmem (d : List (String × JVal)) (k : String) : Bool :=
  d.any (fun p => p.1 == k)

/-- `d[k] = v` on our association-list dicts: update in place if the key
exists (dicts keep the original position), else append (insertion order). -/
def dset (d : List (String × JVal)) (k : String) (v : JVal) : List (String × JVal) :=
  if dmem d k then d.map (fun p => if p.1 == k then (p.1, v) else p)
  else d ++ [(k, v)]

/-- Python `max` over a list of integers, `0` for the empty list (the code
always guards with `if vacancies else 0`). -/
def maxIntD0 : List Int → Int
  | [] => 0
  | x :: xs => xs.foldl max x

/-- Insertion of a string into an ascending list (for Python `sorted`). -/
def insertSorted (s : String) : List String → List String
  | [] => [s]
  | x :: xs => if s < x || s == x then s :: x :: xs else x :: insertSorted s xs

/-- Python `sorted` on a list of (distinct) strings. -/
def sortStrings (l : List String) : List String :=
  l.foldr insertSorted []

/-! ### `scoring.py`: data model -/

/-- The fields of a `Vacancy` row read by the scoring engine. Instants are
seconds; `first_seen_at`/`last_seen_at` are non-nullable columns (server
default `now()`), `published_at` is nullable. -/
structure Vacancy where
  source : String
  search_profile_id : Int
  company_id : Option Int
  job_title : String
  published_at : Option Int
  first_seen_at : Int
  last_seen_at : Int
  status : String
  extracted_data : Option (List (String × JVal))

/-- `_vacancy_age_date`: prefer `published_at` over `first_seen_at`
(timezone coercion is a no-op in our instant model). -/
def vacancy_age_date (v : Vacancy) : Int :=
  v.published_at.getD v.first_seen_at

/-- The fields of a `Company` row read by the scoring engine. -/
structure Company where
  id : Int
  normalized_name : String
  sbi_codes : Option (List JVal)
  employee_range : Option String
  revenue_range : Option String
  entity_count : Option Int

/-- One criterion entry `{"score": .., "value": .., "weight": ..}` of the
fit breakdown. -/
structure CritEntry where
  score : ℚ
  value : JVal
  weight : ℚ

/-- One signal entry `{"points": .., "value": ..}` of the timing
breakdown. -/
structure SignalEntry where
  points : ℚ
  value : JVal

/-- Return value of `_compute_fit_score`. -/
structure FitResult where
  score : ℚ
  breakdown : List (String × CritEntry)

/-- Return value of `_compute_timing_score`. -/
structure TimingResult where
  score : ℚ
  total_points : ℚ
  max_points : ℚ
  breakdown : List (String × SignalEntry)

/-- The `scoring_breakdown` JSON blob stored on a `Lead`: either
`{"excluded_reason": reason}` or the full fit/timing audit dict. -/
inductive Breakdown where
  | excluded (excluded_reason : String)
  | scored (fit : FitResult) (timing : TimingResult) (fit_weight timing_weight : ℚ)

/-- The fields of a `Lead` row written by the scoring engine. -/
structure Lead where
  company_id : Int
  search_profile_id : Int
  fit_score : ℚ
  timing_score : ℚ
  composite_score : ℚ
  status : String
  scoring_breakdown : Breakdown
  vacancy_count : Nat
  oldest_vacancy_days : Int
  platform_count : Nat
  scored_at : Option Int

/-! ### `scoring.py`: configuration -/

/-- `fit_criteria["employee_count"]`: weight plus a range→score dict
(`thresholds` may be absent, `.get("thresholds", {})`; an empty table
models that). -/
structure EmployeeCountCriterion where
  weight : ℚ
  thresholds : List (String × ℚ)

/-- One `{"min": .., "max": .., "score": ..}` bucket of the entity-count
table. -/
structure EntityThreshold where
  min : Int
  max : Int
  score : ℚ

/-- `fit_criteria["entity_count"]`. -/
structure EntityCountCriterion where
  weight : ℚ
  thresholds : List EntityThreshold

/-- `fit_criteria["erp_compatibility"]`: keyword→score dict. -/
structure ErpCriterion where
  weight : ℚ
  scores : List (String × ℚ)

/-- `fit_criteria["no_existing_automation"]`: the three mandatory keys of
its `scores` dict (`criterion["scores"][..]` is a plain subscript). -/
structure AutomationCriterion where
  weight : ℚ
  has_tool : ℚ
  unknown : ℚ
  confirmed_none : ℚ

/-- `fit_criteria["revenue"]`. -/
structure RevenueCriterion where
  weight : ℚ
  thresholds : List (String × ℚ)

/-- `fit_criteria["sector_fit"]`. -/
structure SectorFitCriterion where
  weight : ℚ
  preferred_sbi_prefixes : List String

/-- `fit_criteria["multi_language"]`: the two mandatory keys of its
`scores` dict. -/
structure MultiLanguageCriterion where
  weight : ℚ
  single : ℚ
  multi : ℚ

/-- The `fit_criteria` dict: the engine recognises exactly these seven
keys, each optional (`if key in criteria`). -/
structure FitCriteria where
  employee_count : Option EmployeeCountCriterion
  entity_count : Option EntityCountCriterion
  erp_compatibility : Option ErpCriterion
  no_existing_automation : Option AutomationCriterion
  revenue : Option RevenueCriterion
  sector_fit : Option SectorFitCriterion
  multi_language : Option MultiLanguageCriterion

/-- One block of `minimum_filters` (`employee_count` or `revenue`):
`enabled` truthiness, optional `min_range` (read with a default) and the
`range_order` ladder (`.get("range_order", [])`). -/
structure SizeFilter where
  enabled : Bool
  min_range : Option String
  range_order : List String

/-- The `minimum_filters` policy block; a missing sub-dict
(`filters.get(.., {})`) behaves as disabled. -/
structure MinimumFilters where
  employee_count : Option SizeFilter
  revenue : Option SizeFilter

/-- The `excluded_company_types` policy block. -/
structure ExcludedCompanyTypes where
  enabled : Bool
  excluded_sbi_prefixes : List String
  excluded_name_keywords : List String

/-- The merged config dict produced by `_get_scoring_config` and consumed
by `_score_company`: weights, criteria, signals, `score_thresholds` keys
`hot`/`warm` (read with defaults 75/50), and the two policy blocks. -/
structure ScoringCfg where
  fit_weight : ℚ
  timing_weight : ℚ
  fit_criteria : FitCriteria
  timing_signals : List (String × ℚ)
  hot_threshold : Option ℚ
  warm_threshold : Option ℚ
  minimum_filters : MinimumFilters
  excluded_company_types : ExcludedCompanyTypes

/-! ### `scoring.py`: extracted-data aggregation -/

/-- One `merged[key] := value` step of `_aggregate_extracted_data`.
`list(set(existing + value))` is modelled as first-occurrence
deduplication; CPython's set iteration order is unspecified, and no scoring
result depends on the order of the merged list. -/
def aggregateStep (merged : List (String × JVal)) (kv : String × JVal) :
    List (String × JVal) :=
  let key := kv.1
  let value := kv.2
  match value with
  | .null => if dmem merged key then merged else dset merged key .null
  | .list xs =>
      if !dmem merged key then dset merged key (.list xs)
      else
        let cur := dget merged key
        let existing := match cur with | .list es => es | c => [c]
        dset merged key (.list ((existing ++ xs).eraseDups))
  | .str s =>
      if !dmem merged key then dset merged key (.str s)
      else
        let cur := dget merged key
        if s != "" && (!jTruthy cur || s.length > (pyStr cur).length) then
          dset merged key (.str s)
        else merged
  | v => if !dmem merged key then dset merged key v else merged

/-- `_aggregate_extracted_data`: fold all vacancies' `extracted_data`
dicts together (`if not vacancy.extracted_data: continue` skips `None` and
empty dicts). -/
def aggregate_extracted_data (vacancies : List Vacancy) : List (String × JVal) :=
  vacancies.foldl
    (fun merged v =>
      match v.extracted_data with
      | none => merged
      | some ed => if ed.isEmpty then merged else ed.foldl aggregateStep merged)
    []

/-! ### `scoring.py`: fit score -/

/-- Python `opt or default` for an optional string column (`None` and `""`
are falsy). -/
def pyOrStr (o : Option String) (d : String) : String :=
  match o with
  | some s => if s != "" then s else d
  | none => d

/-- Python `truthy(column)` for an optional string column. -/
def strColTruthy (o : Option String) : Bool :=
  match o with
  | some s => s != ""
  | none => false

/-- The values Python iterates over for `extracted.get(key) or []`: a falsy
value yields `[]`, a list yields its elements, a string yields its
characters (Python string iteration). Truthy non-iterables would raise
`TypeError` in the source and cannot be produced by `_sanitize_extraction`;
they are modelled as `[]`. -/
def iterElems : JVal → List JVal
  | .list xs => xs
  | .str s => if s == "" then [] else s.data.map (fun c => JVal.str (String.mk [c]))
  | _ => []

/-- The inner double loop of the ERP criterion: for each mentioned system,
substring-match all keyword/score pairs (in dict order), keeping the
highest score seen so far together with the system string that achieved
it. Elements are strings after sanitization (`erp.lower()`). -/
def erpScan (scores : List (String × ℚ)) (erps : List JVal) : ℚ × String :=
  erps.foldl
    (fun best erp =>
      let erp_lower := strLower (pyStr erp)
      scores.foldl
        (fun (b : ℚ × String) p =>
          if strContainsSub p.1.data erp_lower.data && p.2 > b.1 then (p.2, pyStr erp)
          else b)
        best)
    (0, "unknown")

/-- `" ".join(str(x) for x in raw)` if the value is a list, else `str(raw)`
— text flattening used for `automation_status` and `complexity_signals`. -/
def joinedText (raw : JVal) : String :=
  match raw with
  | .list xs => String.intercalate " " (xs.map pyStr)
  | x => pyStr x

/-- `any(kw in text.lower() for kw in kws)`. -/
def anyKeywordIn (kws : List String) (text : String) : Bool :=
  kws.any (fun kw => strContainsSub kw.data (strLower text).data)

/-- The sector-fit double loop: scan the company's SBI codes in order; the
first code having a preferred prefix sets score 80 and records the code;
the outer loop stops as soon as the recorded code is truthy (an empty
matched string does not stop it, faithfully to `if matched_sbi: break`). -/
def sectorScan (preferred : List String) : List JVal → ℚ × Option String → ℚ × Option String
  | [], st => st
  | sbi :: rest, st =>
      let sbi_str := pyStr sbi
      let st' :=
        if preferred.any (fun pre => strStartsWith sbi_str pre) then
          ((80 : ℚ), some sbi_str)
        else st
      if (match st'.2 with | some s => s != "" | none => false) then st'
      else sectorScan preferred rest st'

/-- `_compute_fit_score`: sequentially accumulate (breakdown, weighted
score sum, weight sum) over the seven recognised criteria, each evaluated
only when present in the config, then normalise. -/
def compute_fit_score (company : Company) (vacancies : List Vacancy)
    (criteria : FitCriteria) : FitResult :=
  let extracted := aggregate_extracted_data vacancies
  let acc0 : List (String × CritEntry) × ℚ × ℚ := ([], 0, 0)
  -- Employee count scoring
  let acc1 : List (String × CritEntry) × ℚ × ℚ := match criteria.employee_count with
    | none => acc0
    | some crit =>
        let employee_range := pyOrStr company.employee_range "unknown"
        let score := (tableGet crit.thresholds employee_range).getD 30
        (acc0.1 ++ [("employee_count", ⟨score, .str employee_range, crit.weight⟩)],
         acc0.2.1 + score * crit.weight, acc0.2.2 + crit.weight)
  -- Entity count scoring
  let acc2 : List (String × CritEntry) × ℚ × ℚ := match criteria.entity_count with
    | none => acc1
    | some crit =>
        let entity_count := match company.entity_count with
          | some n => if n != 0 then n else 1
          | none => 1
        let score := match crit.thresholds.find?
            (fun t => t.min ≤ entity_count && entity_count ≤ t.max) with
          | some t => t.score
          | none => 20
        (acc1.1 ++ [("entity_count", ⟨score, .num entity_count, crit.weight⟩)],
         acc1.2.1 + score * crit.weight, acc1.2.2 + crit.weight)
  -- ERP compatibility scoring
  let acc3 : List (String × CritEntry) × ℚ × ℚ := match criteria.erp_compatibility with
    | none => acc2
    | some crit =>
        let erp_systems := iterElems (dget extracted "erp_systems")
        let best := erpScan crit.scores erp_systems
        let best_score := if erp_systems.isEmpty then (40 : ℚ) else best.1
        let best_erp := if erp_systems.isEmpty then "unknown" else best.2
        (acc2.1 ++ [("erp_compatibility", ⟨best_score, .str best_erp, crit.weight⟩)],
         acc2.2.1 + best_score * crit.weight, acc2.2.2 + crit.weight)
  -- No existing automation scoring
  let acc4 : List (String × CritEntry) × ℚ × ℚ := match criteria.no_existing_automation with
    | none => acc3
    | some crit =>
        let raw := dget extracted "automation_status"
        let automation := joinedText (if jTruthy raw then raw else .str "unknown")
        let res : ℚ × String :=
          if anyKeywordIn ["basware", "coupa", "tradeshift", "rpa"] automation then
            (crit.has_tool, "has_tool")
          else if anyKeywordIn ["geen", "no", "manual"] automation then
            (crit.confirmed_none, "confirmed_none")
          else (crit.unknown, "unknown")
        (acc3.1 ++ [("no_existing_automation", ⟨res.1, .str res.2, crit.weight⟩)],
         acc3.2.1 + res.1 * crit.weight, acc3.2.2 + crit.weight)
  -- Revenue scoring
  let acc5 : List (String × CritEntry) × ℚ × ℚ := match criteria.revenue with
    | none => acc4
    | some crit =>
        let revenue_range := pyOrStr company.revenue_range "unknown"
        let score := (tableGet crit.thresholds revenue_range).getD 30
        (acc4.1 ++ [("revenue", ⟨score, .str revenue_range, crit.weight⟩)],
         acc4.2.1 + score * crit.weight, acc4.2.2 + crit.weight)
  -- Sector fit scoring
  let acc6 : List (String × CritEntry) × ℚ × ℚ := match criteria.sector_fit with
    | none => acc5
    | some crit =>
        let sbi_codes := (company.sbi_codes).getD []
        let res := sectorScan crit.preferred_sbi_prefixes sbi_codes (30, none)
        let value := match res.2 with
          | some s => if s != "" then s else "none"
          | none => "none"
        (acc5.1 ++ [("sector_fit", ⟨res.1, .str value, crit.weight⟩)],
         acc5.2.1 + res.1 * crit.weight, acc5.2.2 + crit.weight)
  -- Multi-language scoring
  let acc7 : List (String × CritEntry) × ℚ × ℚ := match criteria.multi_language with
    | none => acc6
    | some crit =>
        let raw := dget extracted "complexity_signals"
        let complexity := joinedText (if jTruthy raw then raw else .str "")
        let is_multi := anyKeywordIn
          ["international", "multi", "language", "english", "german", "french"] complexity
        let score := if is_multi then crit.multi else crit.single
        let value := if is_multi then "multi" else "single"
        (acc6.1 ++ [("multi_language", ⟨score, .str value, crit.weight⟩)],
         acc6.2.1 + score * crit.weight, acc6.2.2 + crit.weight)
  let final := if acc7.2.2 > 0 then acc7.2.1 / acc7.2.2 else 0
  ⟨pyRound1 (min final 100), acc7.1⟩

/-! ### `scoring.py`: timing score -/

/-- `max((now - _vacancy_age_date(v)).days for v in vacancies) if vacancies
else 0`. -/
def oldestVacancyDays (vacancies : List Vacancy) (now : Int) : Int :=
  maxIntD0 (vacancies.map (fun v => daysBetween now (vacancy_age_date v)))

/-- The management-title keywords of the timing signal. -/
def MGMT_KEYWORDS : List String :=
  ["manager", "teamleider", "hoofd", "director", "lead", "senior"]

/-- `_compute_timing_score`: five hard-coded signals, each contributing
`signals.get(key, default)` points when it fires (the default applies even
when the key is absent from the config); `max_points` is the sum of all
configured point values; the normalised score is capped at 100 and rounded
to one decimal. -/
def compute_timing_score (vacancies : List Vacancy) (signals : List (String × ℚ))
    (now : Int) : TimingResult :=
  let max_points := (signals.map (fun p => p.2)).sum
  -- Signal: vacancy open for more than 60 days
  let oldest_days := oldestVacancyDays vacancies now
  let age_fires := oldest_days > 60
  let age_pts := if age_fires then (tableGet signals "vacancy_age_over_60_days").getD 3 else 0
  let age_val : JVal := .str (toString oldest_days ++ " days")
  -- Signal: multiple vacancies for the same role
  let multi_fires := vacancies.length ≥ 2
  let multi_pts := if multi_fires then (tableGet signals "multiple_vacancies_same_role").getD 4 else 0
  let multi_val : JVal := .num vacancies.length
  -- Signal: vacancy re-posted (seen over >14 day span); `last_seen_at` and
  -- `first_seen_at` are non-nullable columns, so their truthiness guard in
  -- the source is always satisfied
  let rep_fires := vacancies.any (fun v => daysBetween v.last_seen_at v.first_seen_at > 14)
  let rep_pts := if rep_fires then (tableGet signals "repeated_publication").getD 3 else 0
  -- Signal: posting on multiple platforms
  let platform_set := (vacancies.map (fun v => v.source)).eraseDups
  let plat_fires := platform_set.length ≥ 2
  let plat_pts := if plat_fires then (tableGet signals "multi_platform").getD 2 else 0
  let plat_val : JVal := .list ((sortStrings platform_set).map (fun s => .str s))
  -- Signal: management vacancy
  let mgmt_fires := vacancies.any (fun v => anyKeywordIn MGMT_KEYWORDS v.job_title)
  let mgmt_pts := if mgmt_fires then (tableGet signals "management_vacancy").getD 2 else 0
  let points := age_pts + multi_pts + rep_pts + plat_pts + mgmt_pts
  let breakdown : List (String × SignalEntry) :=
    [("vacancy_age_over_60_days", ⟨age_pts, age_val⟩),
     ("multiple_vacancies_same_role", ⟨multi_pts, multi_val⟩),
     ("repeated_publication", ⟨rep_pts, .bool rep_fires⟩),
     ("multi_platform", ⟨plat_pts, plat_val⟩),
     ("management_vacancy", ⟨mgmt_pts, .bool mgmt_fires⟩)]
  let score := if max_points > 0 then points / max_points * 100 else 0
  ⟨pyRound1 (min score 100), points, max_points, breakdown⟩

/-! ### `scoring.py`: exclusion and minimum-size checks -/

/-- One block of `_check_minimum_filters` (the employee and revenue blocks
are textually identical up to the default minimum and the message): when
the filter is enabled and the column truthy, compare ladder positions and
reject with a message when strictly below the configured minimum. -/
def sizeFilterCheck (fopt : Option SizeFilter) (col : Option String)
    (defMin : String) (mkMsg : String → String → String) : Option String :=
  match fopt with
  | none => none
  | some f =>
      if f.enabled && strColTruthy col then
        let range_order := f.range_order
        let min_range := f.min_range.getD defMin
        let v := col.getD ""
        if range_order.contains min_range && range_order.contains v then
          if range_order.indexOf v < range_order.indexOf min_range then
            some (mkMsg v min_range)
          else none
        else none
      else none

/-- The f-string of the employee block of `_check_minimum_filters`. -/
def tooSmallMsg (v min_range : String) : String :=
  "Company too small: " ++ v ++ " employees (minimum: " ++ min_range ++ ")"

/-- The f-string of the revenue block of `_check_minimum_filters`. -/
def revenueTooLowMsg (v min_range : String) : String :=
  "Revenue too low: " ++ v ++ " (minimum: " ++ min_range ++ ")"

/-- `_check_minimum_filters`: a company is rejected when an enabled filter
has both the configured minimum and the company's (truthy) range value in
the `range_order` ladder and the company's position is strictly below the
minimum's. The employee filter is checked first. -/
def check_minimum_filters (company : Company) (filters : MinimumFilters) :
    Option String :=
  match sizeFilterCheck filters.employee_count company.employee_range "1-9" tooSmallMsg with
  | some r => some r
  | none =>
      sizeFilterCheck filters.revenue company.revenue_range "<1M" revenueTooLowMsg

/-- `_check_excluded_company_types`: when the policy is enabled, first scan
the SBI codes for an excluded prefix, then scan the (truthy) normalized
name for an excluded keyword (case-insensitively). -/
def check_excluded_company_types (company : Company)
    (exclusions : ExcludedCompanyTypes) : Option String :=
  if !exclusions.enabled then none
  else
    let sbi_codes := company.sbi_codes.getD []
    let sbiRes : Option String :=
      if !exclusions.excluded_sbi_prefixes.isEmpty && !sbi_codes.isEmpty then
        (sbi_codes.findSome? (fun sbi =>
          let sbi_str := pyStr sbi
          if exclusions.excluded_sbi_prefixes.any (fun pre => strStartsWith sbi_str pre) then
            some ("Excluded company type: SBI " ++ sbi_str ++ " (staffing/uitzend/detachering)")
          else none))
      else none
    match sbiRes with
    | some r => some r
    | none =>
        if !exclusions.excluded_name_keywords.isEmpty && company.normalized_name != "" then
          let name_lower := strLower company.normalized_name
          exclusions.excluded_name_keywords.findSome? (fun keyword =>
            if strContainsSub (strLower keyword).data name_lower.data then
              some ("Excluded company type: name contains " ++ String.singleton '\'' ++
                keyword ++ String.singleton '\'' ++ " (staffing/recruitment)")
            else none)
        else none

/-! ### `scoring.py`: lead upsert, exclusion marking, per-company scoring -/

/-- Replace the (unique) lead row for the updated lead's
(company, profile) pair — the ORM mutates the selected row in place. -/
def upsertLead (leads : List Lead) (l' : Lead) : List Lead :=
  leads.map (fun l =>
    if l.company_id == l'.company_id && l.search_profile_id == l'.search_profile_id
    then l' else l)

/-- `select(Vacancy).where(company_id, search_profile_id, status ==
"active")`: the active vacancies of one (company, profile) pair. -/
def activeVacancies (vacancies : List Vacancy) (company_id profile_id : Int) :
    List Vacancy :=
  vacancies.filter (fun v =>
    v.company_id == some company_id && v.search_profile_id == profile_id &&
    v.status == "active")

/-- `select(Lead).where(company_id, search_profile_id)` +
`scalar_one_or_none()`. -/
def findLead (leads : List Lead) (company_id profile_id : Int) : Option Lead :=
  leads.find? (fun l => l.company_id == company_id && l.search_profile_id == profile_id)

/-- `_mark_excluded`: update the existing lead's status, breakdown and
`scored_at` in place, or insert a fresh all-zero excluded lead. Returns the
written lead and the new lead table. -/
def mark_excluded (leads : List Lead) (company_id profile_id : Int)
    (reason : String) (now : Int) : Lead × List Lead :=
  match findLead leads company_id profile_id with
  | some lead =>
      let lead' := { lead with
        status := "excluded"
        scoring_breakdown := .excluded reason
        scored_at := some now }
      (lead', upsertLead leads lead')
  | none =>
      let lead : Lead :=
        { company_id := company_id
          search_profile_id := profile_id
          fit_score := 0
          timing_score := 0
          composite_score := 0
          status := "excluded"
          scoring_breakdown := .excluded reason
          vacancy_count := 0
          oldest_vacancy_days := 0
          platform_count := 0
          scored_at := some now }
      (lead, leads ++ [lead])

/-- `_score_company`: the per-company scoring state machine. Takes the
company table, vacancy table and lead table, the target pair, the merged
config and the current instant; returns the lead written this pass (if
any) and the new lead table. -/
def score_company (companies : List Company) (vacancies : List Vacancy)
    (leads : List Lead) (company_id profile_id : Int) (config : ScoringCfg)
    (now : Int) : Option Lead × List Lead :=
  match companies.find? (fun c => c.id == company_id) with
  | none => (none, leads)
  | some company =>
    match check_excluded_company_types company config.excluded_company_types with
    | some reason =>
        let r := mark_excluded leads company_id profile_id reason now
        (some r.1, r.2)
    | none =>
      match check_minimum_filters company config.minimum_filters with
      | some reason =>
          let r := mark_excluded leads company_id profile_id reason now
          (some r.1, r.2)
      | none =>
        let vacs := activeVacancies vacancies company_id profile_id
        if vacs.isEmpty then (none, leads)
        else
          let fit_result := compute_fit_score company vacs config.fit_criteria
          let timing_result := compute_timing_score vacs config.timing_signals now
          let fit_score := fit_result.score
          let timing_score := timing_result.score
          let composite := fit_score * config.fit_weight + timing_score * config.timing_weight
          let status :=
            if composite ≥ config.hot_threshold.getD 75 then "hot"
            else if composite ≥ config.warm_threshold.getD 50 then "warm"
            else "monitor"
          let oldest_days := oldestVacancyDays vacs now
          let platforms := (vacs.map (fun v => v.source)).eraseDups.length
          let breakdown : Breakdown :=
            .scored fit_result timing_result config.fit_weight config.timing_weight
          match findLead leads company_id profile_id with
          | some lead =>
              let lead' := { lead with
                fit_score := fit_score
                timing_score := timing_score
                composite_score := pyRound1 composite
                scoring_breakdown := breakdown
                vacancy_count := vacs.length
                oldest_vacancy_days := oldest_days
                platform_count := platforms
                scored_at := some now
                status := if lead.status != "dismissed" then status else lead.status }
              (some lead', upsertLead leads lead')
          | none =>
              let lead : Lead :=
                { company_id := company_id
                  search_profile_id := profile_id
                  fit_score := fit_score
                  timing_score := timing_score
                  composite_score := pyRound1 composite
                  status := status
                  scoring_breakdown := breakdown
                  vacancy_count := vacs.length
                  oldest_vacancy_days := oldest_days
                  platform_count := platforms
                  scored_at := some now }
              (some lead, leads ++ [lead])

/-! ### `dedup.py`: merging companies by KvK number -/

/-- A `Company` row as seen by the merge job: identity, merge key, creation
time, and the seven data fields listed in `_merge_company_data`
(heterogeneous values abstracted as `JVal`). -/
structure CompanyRow where
  id : Nat
  kvk_number : Option String
  created_at : Int
  sbi_codes : Option JVal
  employee_range : Option JVal
  revenue_range : Option JVal
  entity_count : Option JVal
  enrichment_data : Option JVal
  kvk_data : Option JVal
  company_info_data : Option JVal

/-- A `Vacancy` row as seen by the merge job. -/
structure VacancyRow where
  id : Nat
  company_id : Option Nat

/-- The two tables the merge job touches. -/
structure DedupDB where
  companies : List CompanyRow
  vacancies : List VacancyRow

/-- `_merge_company_data`: for each of the seven fields, fill the
survivor's value from the duplicate only when the survivor's value is
`None`; never overwrite a set value. -/
def merge_company_data (survivor dup : CompanyRow) : CompanyRow :=
  { survivor with
    sbi_codes := survivor.sbi_codes <|> dup.sbi_codes
    employee_range := survivor.employee_range <|> dup.employee_range
    revenue_range := survivor.revenue_range <|> dup.revenue_range
    entity_count := survivor.entity_count <|> dup.entity_count
    enrichment_data := survivor.enrichment_data <|> dup.enrichment_data
    kvk_data := survivor.kvk_data <|> dup.kvk_data
    company_info_data := survivor.company_info_data <|> dup.company_info_data }

/-- The `created_at` ordering used by `order_by(Company.created_at)`. -/
def createdLE (a b : CompanyRow) : Prop := a.created_at ≤ b.created_at

instance : DecidableRel createdLE := fun a b => by
  unfold createdLE
  infer_instance

/-- `select(Company).where(kvk_number == k)`: the group of companies
holding one KvK number. -/
def gfilter (k : String) (cs : List CompanyRow) : List CompanyRow :=
  cs.filter (fun c => c.kvk_number == some k)

/-- Re-point one vacancy row at the survivor when it references the
duplicate being merged (`v.company_id = survivor.id`). -/
def reassignFn (survivor dup : CompanyRow) (v : VacancyRow) : VacancyRow :=
  if v.company_id == some dup.id then { v with company_id := some survivor.id } else v

/-- Process one duplicated KvK number: select its group ordered by creation
time, keep the oldest as survivor, then for every other record fill the
survivor's nulls, re-point its vacancies at the survivor and delete it.
Returns the updated tables and the number of deletions in this group. -/
def processKvk (db : DedupDB) (k : String) : DedupDB × Nat :=
  let group := List.insertionSort createdLE (gfilter k db.companies)
  match group with
  | [] => (db, 0)
  | [_] => (db, 0)
  | survivor :: dups =>
      let res := dups.foldl
        (fun (st : CompanyRow × List VacancyRow × Nat) dup =>
          (merge_company_data st.1 dup,
           st.2.1.map (reassignFn survivor dup),
           st.2.2 + 1))
        (survivor, db.vacancies, 0)
      let dupIds := dups.map (fun c => c.id)
      ({ companies := db.companies.filterMap (fun c =>
            if dupIds.contains c.id then none
            else if c.id == survivor.id then some res.1 else some c),
         vacancies := res.2.1 },
       res.2.2)

/-- First-occurrence deduplication of a key list, skipping keys already
seen (models the distinct groups emitted by SQL `GROUP BY kvk_number`). -/
def dedupKeysAux (seen : List String) : List String → List String
  | [] => []
  | k :: rest =>
      if seen.contains k then dedupKeysAux seen rest
      else k :: dedupKeysAux (k :: seen) rest

/-- First-occurrence deduplication of a key list. -/
def dedupKeys (l : List String) : List String :=
  dedupKeysAux [] l

/-- The `GROUP BY kvk_number HAVING count(id) > 1` query: every KvK number
held by at least two company records, each number once. (SQL emits the
groups in unspecified order; first-occurrence order is used here — the
groups are disjoint, so the outcome does not depend on it.) -/
def duplicateKvks (db : DedupDB) : List String :=
  (dedupKeys (db.companies.filterMap (fun c => c.kvk_number))).filter
    (fun k => 2 ≤ db.companies.countP (fun c => c.kvk_number == some k))

/-- One iteration of the merge loop: process one KvK number and accumulate
its deletion count. -/
def mergeStep (st : DedupDB × Nat) (k : String) : DedupDB × Nat :=
  let r := processKvk st.1 k
  (r.1, st.2 + r.2)

/-- `merge_companies_by_kvk`: find every KvK number held by at least two
company records, process each group, and return the total number of
deleted records. -/
def merge_companies_by_kvk (db : DedupDB) : DedupDB × Nat :=
  (duplicateKvks db).foldl mergeStep (db, 0)

/-! ### Properties of the normalization pipeline -/

theorem pyStrip_eq_rdropWhile (l : List Char) :
    pyStrip l = List.rdropWhile pyIsWs (l.dropWhile pyIsWs) := rfl

theorem pyStrip_idem (l : List Char) : pyStrip (pyStrip l) = pyStrip l := by
  have h1 : (List.rdropWhile pyIsWs (l.dropWhile pyIsWs)).dropWhile pyIsWs
      = List.rdropWhile pyIsWs (l.dropWhile pyIsWs) := by
    rw [List.dropWhile_eq_self_iff]
    intro hl
    have hpre : List.rdropWhile pyIsWs (l.dropWhile pyIsWs) <+: l.dropWhile pyIsWs :=
      List.rdropWhile_prefix _ _
    have hlen : 0 < (l.dropWhile pyIsWs).length := lt_of_lt_of_le hl hpre.length_le
    have hget := hpre.getElem hl
    have hnot := List.dropWhile_get_zero_not (p := pyIsWs) l hlen
    simp only [List.get_eq_getElem] at hnot ⊢
    rw [hget]
    exact hnot
  rw [pyStrip_eq_rdropWhile, pyStrip_eq_rdropWhile, h1, List.rdropWhile_idempotent]

theorem pyStrip_within (l : List Char) : pyStrip l <:+: l := by
  rw [pyStrip_eq_rdropWhile]
  exact (List.rdropWhile_prefix _ _).isInfix.trans (List.dropWhile_suffix _).isInfix

theorem mem_pyStrip {c : Char} {l : List Char} (h : c ∈ pyStrip l) : c ∈ l :=
  (pyStrip_within l).subset h

/-- The lowercase output alphabet of `pyLower`. -/
def LOWERCASE_LETTERS : List Char :=
  ['a', 'b', 'c', 'd', 'e', 'f', 'g', 'h', 'i', 'j', 'k', 'l', 'm',
   'n', 'o', 'p', 'q', 'r', 's', 't', 'u', 'v', 'w', 'x', 'y', 'z']

theorem pyLower_cases (c : Char) : pyLower c = c ∨ pyLower c ∈ LOWERCASE_LETTERS := by
  unfold pyLower
  cases hf : LOWER_MAP.find? (fun p => p.1 == c) with
  | none => exact Or.inl rfl
  | some p =>
      right
      have hmem : p ∈ LOWER_MAP := List.mem_of_find?_eq_some hf
      have hall : ∀ q ∈ LOWER_MAP, q.2 ∈ LOWERCASE_LETTERS := by decide
      exact hall p hmem

theorem pyLower_idem (c : Char) : pyLower (pyLower c) = pyLower c := by
  rcases pyLower_cases c with h | h
  · rw [h]; exact h
  · have hall : ∀ d ∈ LOWERCASE_LETTERS, pyLower d = d := by decide
    exact hall _ h

theorem noiseMap_idem (c : Char) : noiseMap (noiseMap c) = noiseMap c := by
  by_cases h : isNoiseChar c = true
  · have : noiseMap c = ' ' := by simp [noiseMap, h]
    rw [this]
    decide
  · have : noiseMap c = c := by simp [noiseMap, h]
    rw [this, this]

theorem mem_wsCollapseAux {c : Char} : ∀ {l : List Char} {b : Bool},
    c ∈ wsCollapseAux b l → c = ' ' ∨ c ∈ l := by
  intro l
  induction l with
  | nil => intro b h; simp [wsCollapseAux] at h
  | cons d t ih =>
    intro b h
    rw [wsCollapseAux] at h
    split at h
    · split at h
      · rcases ih h with h' | h'
        · exact Or.inl h'
        · exact Or.inr (List.mem_cons_of_mem _ h')
      · rcases List.mem_cons.mp h with h' | h'
        · exact Or.inl h'
        · rcases ih h' with h'' | h''
          · exact Or.inl h''
          · exact Or.inr (List.mem_cons_of_mem _ h'')
    · rcases List.mem_cons.mp h with h' | h'
      · exact Or.inr (h' ▸ List.mem_cons_self _ _)
      · rcases ih h' with h'' | h''
        · exact Or.inl h''
        · exact Or.inr (List.mem_cons_of_mem _ h'')

theorem head_wsCollapseAux_true : ∀ (l : List Char),
    ∀ c ∈ (wsCollapseAux true l).head?, pyIsWs c = false := by
  intro l
  induction l with
  | nil => intro c h; simp [wsCollapseAux] at h
  | cons d t ih =>
    intro c h
    rw [wsCollapseAux] at h
    split at h
    · exact ih c h
    · simp only [List.head?_cons, Option.mem_some_iff] at h
      subst h
      rename_i hd
      exact Bool.eq_false_iff.mpr hd

theorem wsCollapseAux_ws_space {c : Char} : ∀ {l : List Char} {b : Bool},
    c ∈ wsCollapseAux b l → pyIsWs c = true → c = ' ' := by
  intro l
  induction l with
  | nil => intro b h; simp [wsCollapseAux] at h
  | cons d t ih =>
    intro b h hws
    rw [wsCollapseAux] at h
    split at h
    · split at h
      · exact ih h hws
      · rcases List.mem_cons.mp h with h' | h'
        · exact h'
        · exact ih h' hws
    · rcases List.mem_cons.mp h with h' | h'
      · rename_i hd
        subst h'
        exact absurd hws (by simp [hd])
      · exact ih h' hws

/-- No two adjacent whitespace characters. -/
def NoWsPair (a b : Char) : Prop := ¬(pyIsWs a = true ∧ pyIsWs b = true)

theorem wsCollapseAux_chain : ∀ (l : List Char) (b : Bool),
    (wsCollapseAux b l).Chain' NoWsPair := by
  intro l
  induction l with
  | nil => intro b; simp [wsCollapseAux]
  | cons d t ih =>
    intro b
    rw [wsCollapseAux]
    split
    · split
      · exact ih true
      · rw [List.chain'_cons']
        constructor
        · intro y hy
          have := head_wsCollapseAux_true t y hy
          simp [NoWsPair, this]
        · exact ih true
    · rw [List.chain'_cons']
      constructor
      · intro y hy
        rename_i hd
        simp [NoWsPair, hd]
      · exact ih false

theorem wsCollapseAux_eq_self : ∀ (l : List Char),
    (∀ c ∈ l, pyIsWs c = true → c = ' ') → l.Chain' NoWsPair →
    wsCollapseAux false l = l ∧
      ((∀ c ∈ l.head?, pyIsWs c = false) → wsCollapseAux true l = l) := by
  intro l
  induction l with
  | nil => intro _ _; exact ⟨rfl, fun _ => rfl⟩
  | cons d t ih =>
    intro hs hc
    have hst : ∀ c ∈ t, pyIsWs c = true → c = ' ' :=
      fun c hc' => hs c (List.mem_cons_of_mem _ hc')
    have hct : t.Chain' NoWsPair := (List.chain'_cons'.mp hc).2
    have iht := ih hst hct
    constructor
    · rw [wsCollapseAux]
      by_cases hd : pyIsWs d = true
      · have hd' : d = ' ' := hs d (List.mem_cons_self _ _) hd
        have hhead : ∀ c ∈ t.head?, pyIsWs c = false := by
          intro c hch
          have := (List.chain'_cons'.mp hc).1 c hch
          simp only [NoWsPair, hd, true_and] at this
          exact Bool.eq_false_iff.mpr this
        simp only [hd, if_true, if_false, Bool.false_eq_true]
        rw [iht.2 hhead, hd']
      · simp only [hd, Bool.false_eq_true, if_false]
        rw [iht.1]
    · intro hhd
      have hd : pyIsWs d = false := hhd d (by simp)
      rw [wsCollapseAux]
      simp only [hd, Bool.false_eq_true, if_false]
      rw [iht.1]

theorem mem_suffixStripAux {c : Char} : ∀ {l : List Char} {b : Bool},
    c ∈ suffixStripAux l b → c ∈ l := by
  intro l
  induction l with
  | nil => intro b h; simp [suffixStripAux] at h
  | cons d t ih =>
    intro b h
    rw [suffixStripAux] at h
    split at h
    · simp at h
    · rcases List.mem_cons.mp h with h' | h'
      · exact h' ▸ List.mem_cons_self _ _
      · exact List.mem_cons_of_mem _ (ih h')

/-- A second pass of `normalize_company_name` changes nothing provided the
legal-suffix pattern no longer matches anywhere in the first pass's output:
stripping, lowercasing, noise replacement and whitespace collapsing are all
invariant on that output. -/
theorem normalizeChars_idem (l : List Char)
    (h : suffixStrip (normalizeChars l) = normalizeChars l) :
    normalizeChars (normalizeChars l) = normalizeChars l := by
  by_cases h0 : (pyStrip l).isEmpty
  · have hl : normalizeChars l = [] := by
      rw [normalizeChars]
      simp [h0]
    rw [hl]
    rw [normalizeChars]
    simp [pyStrip]
  · have hue : normalizeChars l
        = pyStrip (wsCollapse ((suffixStrip ((pyStrip l).map pyLower)).map noiseMap)) := by
      rw [normalizeChars]
      simp [h0]
    set u := normalizeChars l with hu
    set l4 := (suffixStrip ((pyStrip l).map pyLower)).map noiseMap with hl4
    have hstrip : pyStrip u = u := by rw [hue]; exact pyStrip_idem _
    have humem : ∀ c ∈ u, c = ' ' ∨ c ∈ l4 := by
      intro c hc
      rw [hue] at hc
      exact mem_wsCollapseAux (mem_pyStrip hc)
    have hl4chars : ∀ c ∈ l4, pyLower c = c ∧ noiseMap c = c := by
      intro c hc
      rw [hl4] at hc
      rcases List.mem_map.mp hc with ⟨d, hd, hdc⟩
      have hd' : d ∈ ((pyStrip l).map pyLower) := mem_suffixStripAux hd
      rcases List.mem_map.mp hd' with ⟨e, _, hed⟩
      subst hdc
      subst hed
      by_cases hn : isNoiseChar (pyLower e) = true
      · have hsp : noiseMap (pyLower e) = ' ' := by simp [noiseMap, hn]
        rw [hsp]
        exact ⟨by decide, by decide⟩
      · have hid : noiseMap (pyLower e) = pyLower e := by simp [noiseMap, hn]
        rw [hid]
        exact ⟨pyLower_idem e, hid⟩
    have hlower : u.map pyLower = u := by
      rw [List.map_congr_left (fun c hc => ?_)]
      · exact List.map_id u
      · rcases humem c hc with h' | h'
        · rw [h']; decide
        · exact (hl4chars c h').1
    have hnoise : u.map noiseMap = u := by
      rw [List.map_congr_left (fun c hc => ?_)]
      · exact List.map_id u
      · rcases humem c hc with h' | h'
        · rw [h']; decide
        · exact (hl4chars c h').2
    have hws1 : ∀ c ∈ u, pyIsWs c = true → c = ' ' := by
      intro c hc
      rw [hue] at hc
      exact wsCollapseAux_ws_space (mem_pyStrip hc)
    have hchain : u.Chain' NoWsPair := by
      have : u <:+: wsCollapse l4 := by rw [hue]; exact pyStrip_within _
      exact List.Chain'.infix (wsCollapseAux_chain l4 false) this
    have hcollapse : wsCollapse u = u := (wsCollapseAux_eq_self u hws1 hchain).1
    by_cases hu0 : u.isEmpty
    · have hun : u = [] := by
        cases hul : u
        · rfl
        · rw [hul] at hu0; simp [List.isEmpty] at hu0
      rw [hun]
      rw [normalizeChars]
      simp [pyStrip]
    · rw [normalizeChars]
      simp only [hstrip, hu0, Bool.false_eq_true, if_false, hlower, h, hnoise, hcollapse]

/-! ### Claim C5 -/

/-- C5: the extraction quality function returns 0 on an empty schema, and
otherwise the number of schema fields whose value is present and neither an
empty string nor an empty list, divided by the number of schema fields; in
particular `quality({}, {a:?}) = 0`, `quality({a:x}, {a:?}) = 1` and
`quality({a:null, b:x}, {a:?, b:?}) = 1/2`. -/
theorem C5_extraction_quality (extracted : List (String × JVal))
    (schema : List (String × String)) :
    (schema = [] → compute_extraction_quality extracted schema = 0) ∧
    (schema ≠ [] → compute_extraction_quality extracted schema =
      ((schema.countP (fun p => isExtractedValue (dget extracted p.1)) : ℚ)
        / (schema.length : ℚ))) ∧
    compute_extraction_quality [] [("a", "?")] = 0 ∧
    compute_extraction_quality [("a", .str "x")] [("a", "?")] = 1 ∧
    compute_extraction_quality [("a", .null), ("b", .str "x")] [("a", "?"), ("b", "?")]
      = 1 / 2 := by
  refine ⟨?_, ?_, ?_, ?_, ?_⟩
  · intro h
    subst h
    rfl
  · intro h
    rw [compute_extraction_quality]
    simp [List.isEmpty_iff, h]
  · simp [compute_extraction_quality, List.countP_cons, isExtractedValue]
  · simp [compute_extraction_quality, List.countP_cons, isExtractedValue]
  · simp [compute_extraction_quality, List.countP_cons, isExtractedValue]

/-- Witness for C5 at concrete inputs. -/
theorem C5_extraction_quality_witness :
    compute_extraction_quality [("x", .str "v")] [] = 0 ∧
    compute_extraction_quality [("a", .str "x")] [("a", "?")] = 1 :=
  ⟨(C5_extraction_quality [("x", .str "v")] []).1 rfl,
   (C5_extraction_quality [] []).2.2.2.1⟩

/-! ### Claim C10 -/

/-- C10 counterexample: a string value with surrounding whitespace is NOT
kept as-is by `_sanitize_extraction`; it is whitespace-stripped
(`value.strip()`), so the claim's "non-empty string values are kept as-is"
fails at `{"a": " x "}`. -/
theorem C10_counterexample :
    sanitize_extraction [("a", .str " x ")] [("a", "?")] = [("a", .str "x")] ∧
    sanitize_extraction [("a", .str " x ")] [("a", "?")] ≠ [("a", .str " x ")] := by
  have h1 : sanitize_extraction [("a", .str " x ")] [("a", "?")] = [("a", .str "x")] := by
    simp [sanitize_extraction, pyStripStr]
    decide
  refine ⟨h1, ?_⟩
  intro h
  rw [h1] at h
  simp at h

/-- C10 (amended): the sanitized map's key list is exactly the schema's key
list (no field outside the schema is persisted), and each schema field is
stored with: list values turned into string lists with null elements
dropped, non-empty string values whitespace-STRIPPED (not kept as-is), and
every other value (missing, empty string, numbers, nested objects) turned
into null. -/
theorem C10_sanitize_amended (extracted : List (String × JVal))
    (schema : List (String × String)) :
    (sanitize_extraction extracted schema).map Prod.fst = schema.map Prod.fst ∧
    ∀ p ∈ schema,
      (p.1, (match dget extracted p.1 with
        | .list xs => JVal.list ((xs.filter (fun v => !v.isNull)).map (fun v => .str (pyStr v)))
        | .str s => if s != "" then .str (pyStripStr s) else .null
        | _ => .null)) ∈ sanitize_extraction extracted schema := by
  constructor
  · rw [sanitize_extraction, List.map_map]
    rfl
  · intro p hp
    exact List.mem_map_of_mem _ hp

/-- Witness for C10 (amended) at a concrete input. -/
theorem C10_sanitize_amended_witness :
    ("a", JVal.str "hi") ∈ sanitize_extraction [("a", .str "hi")] [("a", "?")] := by
  have h := (C10_sanitize_amended [("a", .str "hi")] [("a", "?")]).2 ("a", "?") (by simp)
  simpa [pyStripStr] using h

/-! ### Claim C7 -/

/-- C7 counterexample: `normalize_company_name` is NOT idempotent. The
suffix regex is end-anchored, so one application strips only the last legal
suffix: `normalize("acme bv bv") = "acme bv"`, but a second application
strips again, giving `"acme"`. -/
theorem C7_counterexample :
    normalize_company_name "acme bv bv" = "acme bv" ∧
    normalize_company_name (normalize_company_name "acme bv bv") = "acme" ∧
    normalize_company_name (normalize_company_name "acme bv bv")
      ≠ normalize_company_name "acme bv bv" := by
  refine ⟨by decide, by decide, by decide⟩

/-- C7 (amended): normalization is invariant across the legal-suffix
spelling variants — `normalize("Acme B.V.") = normalize("Acme BV") =
normalize(" acme b.v. ") = "acme"` — and it is idempotent on every string
whose normalized form does not itself end in a legal-entity suffix (only
one end-anchored suffix is stripped per application, so inputs like
`"acme bv bv"` need a second pass). -/
theorem C7_normalize_amended :
    (normalize_company_name "Acme B.V." = "acme" ∧
     normalize_company_name "Acme BV" = "acme" ∧
     normalize_company_name " acme b.v. " = "acme") ∧
    ∀ s : String,
      suffixStrip (normalize_company_name s).data = (normalize_company_name s).data →
      normalize_company_name (normalize_company_name s) = normalize_company_name s := by
  constructor
  · exact ⟨by decide, by decide, by decide⟩
  · intro s h
    have : normalizeChars (normalizeChars s.data) = normalizeChars s.data :=
      normalizeChars_idem s.data h
    simpa [normalize_company_name] using congrArg String.mk this

/-- Witness for C7 (amended): the conditional idempotence applied at
`"Acme B.V."`, whose normalized form `"acme"` is suffix-free. -/
theorem C7_normalize_amended_witness :
    normalize_company_name (normalize_company_name "Acme B.V.")
      = normalize_company_name "Acme B.V." :=
  C7_normalize_amended.2 "Acme B.V." (by decide)

/-! ### Claim C6 -/

theorem sizeFilterCheck_isSome_iff (fopt : Option SizeFilter) (col : Option String)
    (defMin : String) (mkMsg : String → String → String) :
    (sizeFilterCheck fopt col defMin mkMsg).isSome = true ↔
      ∃ f, fopt = some f ∧ f.enabled = true ∧
        ∃ v, col = some v ∧ v ≠ "" ∧
          f.min_range.getD defMin ∈ f.range_order ∧ v ∈ f.range_order ∧
          f.range_order.indexOf v < f.range_order.indexOf (f.min_range.getD defMin) := by
  cases fopt with
  | none => simp [sizeFilterCheck]
  | some f =>
    cases col with
    | none => simp [sizeFilterCheck, strColTruthy]
    | some v =>
      simp only [sizeFilterCheck, strColTruthy]
      split_ifs with h1 h2 h3 <;>
        simp_all [Bool.and_eq_true, bne_iff_ne, List.elem_iff, not_lt, List.contains]

theorem sizeFilterCheck_none_of_col_none (fopt : Option SizeFilter)
    (defMin : String) (mkMsg : String → String → String) :
    sizeFilterCheck fopt none defMin mkMsg = none := by
  cases fopt <;> simp [sizeFilterCheck, strColTruthy]

theorem sizeFilterCheck_eq_some (fopt : Option SizeFilter) (col : Option String)
    (defMin : String) (mkMsg : String → String → String) (f : SizeFilter) (v : String)
    (hf : fopt = some f) (he : f.enabled = true) (hv : col = some v) (hv' : v ≠ "")
    (hm : f.min_range.getD defMin ∈ f.range_order) (hvm : v ∈ f.range_order)
    (hidx : f.range_order.indexOf v < f.range_order.indexOf (f.min_range.getD defMin)) :
    sizeFilterCheck fopt col defMin mkMsg = some (mkMsg v (f.min_range.getD defMin)) := by
  subst hf
  subst hv
  simp only [sizeFilterCheck, strColTruthy]
  have h1 : (f.enabled && (v != "")) = true := by simp [he, hv']
  have h2 : (f.range_order.contains (f.min_range.getD defMin) && f.range_order.contains v)
      = true := by
    simp [List.contains, List.elem_iff, hm, hvm]
  simp [h1, h2, hidx, hm, hvm]

/-- C6 counterexample: with a ladder that contains the empty string, a
company whose `employee_range` is the NON-NULL value `""` sits strictly
below the configured minimum, yet `_check_minimum_filters` does not reject
it — the guard is Python truthiness (`and company.employee_range`), which
treats `""` like `None`. So "non-null ... value present in the configured
ladder" is not exactly the code's condition. -/
theorem C6_counterexample :
    check_minimum_filters
      { id := 1, normalized_name := "acme", sbi_codes := none,
        employee_range := some "", revenue_range := none, entity_count := none }
      { employee_count := some
          { enabled := true, min_range := some "10-49",
            range_order := ["", "10-49"] },
        revenue := none } = none ∧
    (some "" ≠ (none : Option String)) ∧
    ("" ∈ ["", "10-49"]) ∧
    (["", "10-49"].indexOf "" < ["", "10-49"].indexOf "10-49") := by
  refine ⟨by decide, by decide, by decide, by decide⟩

/-- C6 (amended): the minimum-size filter rejects a company exactly when
some corresponding filter block is enabled, the company's range value is
non-null AND non-empty (Python truthiness), both the configured minimum
and the company's value occur in the configured ladder, and the company's
ladder position is strictly below the minimum's; a company whose range
value is null (or empty) is never excluded by this rule, and both the
employee and the revenue rejections carry a reason string citing the
actual vs. minimum range. -/
theorem C6_min_filters_amended (company : Company) (filters : MinimumFilters) :
    ((check_minimum_filters company filters).isSome = true ↔
      (∃ f, filters.employee_count = some f ∧ f.enabled = true ∧
        ∃ v, company.employee_range = some v ∧ v ≠ "" ∧
          f.min_range.getD "1-9" ∈ f.range_order ∧ v ∈ f.range_order ∧
          f.range_order.indexOf v < f.range_order.indexOf (f.min_range.getD "1-9")) ∨
      (∃ f, filters.revenue = some f ∧ f.enabled = true ∧
        ∃ v, company.revenue_range = some v ∧ v ≠ "" ∧
          f.min_range.getD "<1M" ∈ f.range_order ∧ v ∈ f.range_order ∧
          f.range_order.indexOf v < f.range_order.indexOf (f.min_range.getD "<1M"))) ∧
    (company.employee_range = none → company.revenue_range = none →
      check_minimum_filters company filters = none) ∧
    (∀ f v, filters.employee_count = some f → f.enabled = true →
      company.employee_range = some v → v ≠ "" →
      f.min_range.getD "1-9" ∈ f.range_order → v ∈ f.range_order →
      f.range_order.indexOf v < f.range_order.indexOf (f.min_range.getD "1-9") →
      check_minimum_filters company filters
        = some (tooSmallMsg v (f.min_range.getD "1-9"))) ∧
    (∀ f v,
      sizeFilterCheck filters.employee_count company.employee_range "1-9" tooSmallMsg
        = none →
      filters.revenue = some f → f.enabled = true →
      company.revenue_range = some v → v ≠ "" →
      f.min_range.getD "<1M" ∈ f.range_order → v ∈ f.range_order →
      f.range_order.indexOf v < f.range_order.indexOf (f.min_range.getD "<1M") →
      check_minimum_filters company filters
        = some (revenueTooLowMsg v (f.min_range.getD "<1M"))) := by
  refine ⟨?_, ?_, ?_, ?_⟩
  · rw [check_minimum_filters]
    cases hemp : sizeFilterCheck filters.employee_count company.employee_range "1-9"
        tooSmallMsg with
    | some r =>
        have h1 : (sizeFilterCheck filters.employee_count company.employee_range "1-9"
            tooSmallMsg).isSome = true := by rw [hemp]; rfl
        rw [sizeFilterCheck_isSome_iff] at h1
        simp only [Option.isSome_some, true_iff]
        exact Or.inl h1
    | none =>
        have h1 : ¬((sizeFilterCheck filters.employee_count company.employee_range "1-9"
            tooSmallMsg).isSome = true) := by rw [hemp]; simp
        rw [sizeFilterCheck_isSome_iff] at h1
        rw [sizeFilterCheck_isSome_iff]
        constructor
        · intro h; exact Or.inr h
        · rintro (h | h)
          · exact absurd h h1
          · exact h
  · intro h1 h2
    rw [check_minimum_filters, h1, h2,
      sizeFilterCheck_none_of_col_none, sizeFilterCheck_none_of_col_none]
  · intro f v hf he hv hv' hm hvm hidx
    rw [check_minimum_filters,
      sizeFilterCheck_eq_some filters.employee_count company.employee_range "1-9"
        tooSmallMsg f v hf he hv hv' hm hvm hidx]
  · intro f v hemp hf he hv hv' hm hvm hidx
    rw [check_minimum_filters, hemp,
      sizeFilterCheck_eq_some filters.revenue company.revenue_range "<1M"
        revenueTooLowMsg f v hf he hv hv' hm hvm hidx]

/-- Witness for C6 (amended): a concrete company with `employee_range`
"1-9" below an enabled minimum of "50-99" is rejected with the
actual-vs-minimum employee message, and one with `revenue_range` "<1M"
below an enabled minimum of "1M-5M" is rejected with the
actual-vs-minimum revenue message. -/
theorem C6_min_filters_amended_witness :
    (check_minimum_filters
      { id := 1, normalized_name := "acme", sbi_codes := none,
        employee_range := some "1-9", revenue_range := none, entity_count := none }
      { employee_count := some
          { enabled := true, min_range := some "50-99",
            range_order := ["1-9", "10-49", "50-99", "100-199", "200-499", "500-999", "1000+"] },
        revenue := none }
      = some (tooSmallMsg "1-9" "50-99")) ∧
    (check_minimum_filters
      { id := 1, normalized_name := "acme", sbi_codes := none,
        employee_range := none, revenue_range := some "<1M", entity_count := none }
      { employee_count := none,
        revenue := some
          { enabled := true, min_range := some "1M-5M",
            range_order := ["<1M", "1M-5M", "5M-10M", "10M+"] } }
      = some (revenueTooLowMsg "<1M" "1M-5M")) := by
  have h := (C6_min_filters_amended
    { id := 1, normalized_name := "acme", sbi_codes := none,
      employee_range := some "1-9", revenue_range := none, entity_count := none }
    { employee_count := some
        { enabled := true, min_range := some "50-99",
          range_order := ["1-9", "10-49", "50-99", "100-199", "200-499", "500-999", "1000+"] },
      revenue := none }).2.2.1
    { enabled := true, min_range := some "50-99",
      range_order := ["1-9", "10-49", "50-99", "100-199", "200-499", "500-999", "1000+"] }
    "1-9" rfl rfl rfl (by decide) (by decide) (by decide) (by decide)
  have h2 := (C6_min_filters_amended
    { id := 1, normalized_name := "acme", sbi_codes := none,
      employee_range := none, revenue_range := some "<1M", entity_count := none }
    { employee_count := none,
      revenue := some
        { enabled := true, min_range := some "1M-5M",
          range_order := ["<1M", "1M-5M", "5M-10M", "10M+"] } }).2.2.2
    { enabled := true, min_range := some "1M-5M",
      range_order := ["<1M", "1M-5M", "5M-10M", "10M+"] }
    "<1M" rfl rfl rfl rfl (by decide) (by decide) (by decide) (by decide)
  exact ⟨by simpa using h, by simpa using h2⟩

/-! ### Claim C4 -/

/-- The points actually accumulated by `_compute_timing_score`: each of the
five hard-coded signals contributes, when its condition fires, the
configured value — or the hard-coded default (3/4/3/2/2) when its key is
absent from the config. -/
def timingFiredPoints (vacancies : List Vacancy) (signals : List (String × ℚ))
    (now : Int) : ℚ :=
  (if oldestVacancyDays vacancies now > 60
    then (tableGet signals "vacancy_age_over_60_days").getD 3 else 0) +
  (if vacancies.length ≥ 2
    then (tableGet signals "multiple_vacancies_same_role").getD 4 else 0) +
  (if vacancies.any (fun v => daysBetween v.last_seen_at v.first_seen_at > 14)
    then (tableGet signals "repeated_publication").getD 3 else 0) +
  (if ((vacancies.map (fun v => v.source)).eraseDups).length ≥ 2
    then (tableGet signals "multi_platform").getD 2 else 0) +
  (if vacancies.any (fun v => anyKeywordIn MGMT_KEYWORDS v.job_title)
    then (tableGet signals "management_vacancy").getD 2 else 0)

theorem compute_timing_score_total_points (vacancies : List Vacancy)
    (signals : List (String × ℚ)) (now : Int) :
    (compute_timing_score vacancies signals now).total_points
      = timingFiredPoints vacancies signals now := rfl

theorem compute_timing_score_max_points (vacancies : List Vacancy)
    (signals : List (String × ℚ)) (now : Int) :
    (compute_timing_score vacancies signals now).max_points
      = (signals.map (fun p => p.2)).sum := rfl

theorem compute_timing_score_score (vacancies : List Vacancy)
    (signals : List (String × ℚ)) (now : Int) :
    (compute_timing_score vacancies signals now).score
      = pyRound1 (min
          (if (signals.map (fun p => p.2)).sum > 0
            then timingFiredPoints vacancies signals now
              / (signals.map (fun p => p.2)).sum * 100
            else 0)
          100) := rfl

/-- Modelled from the spec: the timing score as claim C4 describes it —
each signal contributes its configured point value ONLY when its key is
present in the configuration, fired points are divided by the sum of all
configured point values and scaled to 100, and the score is 0 when no
signals are configured. Written from the claim's words, for comparison
with the code's `compute_timing_score`. -/
def timing_score_claimed (vacancies : List Vacancy) (signals : List (String × ℚ))
    (now : Int) : ℚ :=
  let fired :=
    (match tableGet signals "vacancy_age_over_60_days" with
      | some pts => if oldestVacancyDays vacancies now > 60 then pts else 0
      | none => 0) +
    (match tableGet signals "multiple_vacancies_same_role" with
      | some pts => if vacancies.length ≥ 2 then pts else 0
      | none => 0) +
    (match tableGet signals "repeated_publication" with
      | some pts =>
          if vacancies.any (fun v => daysBetween v.last_seen_at v.first_seen_at > 14)
          then pts else 0
      | none => 0) +
    (match tableGet signals "multi_platform" with
      | some pts =>
          if ((vacancies.map (fun v => v.source)).eraseDups).length ≥ 2 then pts else 0
      | none => 0) +
    (match tableGet signals "management_vacancy" with
      | some pts =>
          if vacancies.any (fun v => anyKeywordIn MGMT_KEYWORDS v.job_title) then pts
          else 0
      | none => 0)
  let maxPts := (signals.map (fun p => p.2)).sum
  if maxPts > 0 then fired / maxPts * 100 else 0

/-- A single, 61-day-old vacancy on one platform with no management title. -/
def c4vac : Vacancy :=
  { source := "indeed", search_profile_id := 1, company_id := some 1,
    job_title := "ap medewerker", published_at := none,
    first_seen_at := 0, last_seen_at := 0, status := "active",
    extracted_data := none }

/-- C4 counterexample: with config `{multi_platform: 2}` only, the
vacancy-age signal is NOT toggled off — it fires with its hard-coded
default of 3 points (`signals.get(key, 3)`), giving 3/2·100 capped at 100,
while the claim's presence-toggled formula yields 0. -/
theorem C4_counterexample :
    (compute_timing_score [c4vac] [("multi_platform", 2)] (61 * 86400)).score = 100 ∧
    timing_score_claimed [c4vac] [("multi_platform", 2)] (61 * 86400) = 0 ∧
    (100 : ℚ) ≠ 0 := by
  have hold : oldestVacancyDays [c4vac] (61 * 86400) = 61 := by decide
  have hrep : [c4vac].any (fun v => daysBetween v.last_seen_at v.first_seen_at > 14)
      = false := by decide
  have hmgmt : [c4vac].any (fun v => anyKeywordIn MGMT_KEYWORDS v.job_title) = false := by
    decide
  have hlen : (([c4vac].map (fun v => v.source)).eraseDups).length = 1 := by decide
  have ht1 : tableGet [("multi_platform", (2 : ℚ))] "vacancy_age_over_60_days" = none := rfl
  have ht2 : tableGet [("multi_platform", (2 : ℚ))] "multiple_vacancies_same_role" = none :=
    rfl
  have ht3 : tableGet [("multi_platform", (2 : ℚ))] "repeated_publication" = none := rfl
  have ht4 : tableGet [("multi_platform", (2 : ℚ))] "multi_platform" = some 2 := rfl
  have ht5 : tableGet [("multi_platform", (2 : ℚ))] "management_vacancy" = none := rfl
  refine ⟨?_, ?_, by norm_num⟩
  · rw [compute_timing_score_score]
    rw [show timingFiredPoints [c4vac] [("multi_platform", 2)] (61 * 86400) = 3 from ?_]
    · norm_num [pyRound1]
    · rw [timingFiredPoints, hold, hrep, hmgmt]
      simp only [ht1, ht2, ht3, ht4, ht5, hlen, Option.getD_none, Option.getD_some]
      norm_num
  · rw [timing_score_claimed]
    simp only [ht1, ht2, ht3, ht4, ht5, hrep, hmgmt, hlen]
    norm_num

/-- C4 (amended): the timing score is 0 when no signals are configured (no
division by zero); otherwise it equals the fired points divided by the sum
of ALL configured point values, times 100, capped at 100 and rounded to
one decimal — where a firing signal contributes its configured value when
its key is present, and a hard-coded default (3, 4, 3, 2 and 2 points
respectively) when it is absent: signals are NOT independently toggled by
presence in the config. -/
theorem C4_timing_amended (vacancies : List Vacancy) (signals : List (String × ℚ))
    (now : Int) :
    (signals = [] → (compute_timing_score vacancies signals now).score = 0) ∧
    (compute_timing_score vacancies signals now).max_points
      = (signals.map (fun p => p.2)).sum ∧
    (compute_timing_score vacancies signals now).score
      = pyRound1 (min
          (if (signals.map (fun p => p.2)).sum > 0
            then timingFiredPoints vacancies signals now
              / (signals.map (fun p => p.2)).sum * 100
            else 0)
          100) := by
  refine ⟨?_, compute_timing_score_max_points _ _ _, compute_timing_score_score _ _ _⟩
  intro h
  subst h
  rw [compute_timing_score_score]
  norm_num [pyRound1]

/-- Witness for C4 (amended): the zero-config case at a concrete vacancy
evaluates to score 0. -/
theorem C4_timing_amended_witness :
    (compute_timing_score [c4vac] [] (61 * 86400)).score = 0 :=
  (C4_timing_amended [c4vac] [] (61 * 86400)).1 rfl

/-! ### Shared concrete fixtures for the scoring claims -/

/-- An exclusion policy that is switched off. -/
def noExclusions : ExcludedCompanyTypes :=
  { enabled := false, excluded_sbi_prefixes := [], excluded_name_keywords := [] }

/-- Minimum-size filters absent from config. -/
def noMinFilters : MinimumFilters := { employee_count := none, revenue := none }

/-- An empty `fit_criteria` dict. -/
def emptyCriteria : FitCriteria :=
  { employee_count := none, entity_count := none, erp_compatibility := none,
    no_existing_automation := none, revenue := none, sector_fit := none,
    multi_language := none }

/-- A minimal merged config with default weights, no criteria, no signals,
no filters and no exclusions. -/
def plainConfig : ScoringCfg :=
  { fit_weight := 6 / 10, timing_weight := 4 / 10, fit_criteria := emptyCriteria,
    timing_signals := [], hot_threshold := none, warm_threshold := none,
    minimum_filters := noMinFilters, excluded_company_types := noExclusions }

/-- `plainConfig` with the staffing exclusion policy enabled. -/
def staffingConfig : ScoringCfg :=
  { plainConfig with excluded_company_types :=
      { enabled := true, excluded_sbi_prefixes := ["78"],
        excluded_name_keywords := ["staffing"] } }

/-- A company whose normalized name contains the keyword "staffing". -/
def c1company : Company :=
  { id := 1, normalized_name := "acme staffing", sbi_codes := none,
    employee_range := none, revenue_range := none, entity_count := none }

/-- An unremarkable company. -/
def plainCompany : Company :=
  { id := 1, normalized_name := "acme", sbi_codes := none,
    employee_range := none, revenue_range := none, entity_count := none }

/-- A pre-existing lead row with non-zero scores and status "warm". -/
def c1lead0 : Lead :=
  { company_id := 1, search_profile_id := 1, fit_score := 50, timing_score := 40,
    composite_score := 46, status := "warm", scoring_breakdown := .excluded "prior",
    vacancy_count := 2, oldest_vacancy_days := 10, platform_count := 1,
    scored_at := some 0 }

/-- A pre-existing lead row whose status was manually set to "dismissed". -/
def dismissedLead : Lead :=
  { c1lead0 with status := "dismissed" }

/-- `plainConfig` with an enabled employee-count minimum filter. -/
def sizeFilterConfig : ScoringCfg :=
  { plainConfig with minimum_filters :=
      { employee_count := some
          { enabled := true, min_range := some "50-99",
            range_order := ["1-9", "10-49", "50-99", "100-199"] },
        revenue := none } }

/-- An unremarkable company whose `employee_range` is below the minimum. -/
def smallCompany : Company :=
  { plainCompany with employee_range := some "1-9" }

/-! ### Claim C1 -/

/-- The claim's trigger condition implies that
`_check_excluded_company_types` returns a reason: the policy is enabled and
either a keyword occurs in the (non-empty) normalized name or some SBI code
starts with an excluded prefix. -/
theorem check_excluded_isSome (company : Company) (exclusions : ExcludedCompanyTypes)
    (hen : exclusions.enabled = true)
    (hcond :
      (∃ kw ∈ exclusions.excluded_name_keywords, company.normalized_name ≠ "" ∧
        strContainsSub (strLower kw).data (strLower company.normalized_name).data = true) ∨
      (∃ sbi ∈ company.sbi_codes.getD [], ∃ pre ∈ exclusions.excluded_sbi_prefixes,
        strStartsWith (pyStr sbi) pre = true)) :
    (check_excluded_company_types company exclusions).isSome = true := by
  rw [check_excluded_company_types]
  simp only [hen, Bool.not_true, Bool.false_eq_true, if_false]
  rcases hcond with ⟨kw, hkw, hname, hsub⟩ | ⟨sbi, hsbi, pre, hpre, hstart⟩
  · cases hs : (if !exclusions.excluded_sbi_prefixes.isEmpty
        && !(company.sbi_codes.getD []).isEmpty then
        ((company.sbi_codes.getD []).findSome? (fun sbi =>
          if exclusions.excluded_sbi_prefixes.any (fun pre => strStartsWith (pyStr sbi) pre) then
            some ("Excluded company type: SBI " ++ pyStr sbi ++ " (staffing/uitzend/detachering)")
          else none))
      else none) with
    | some r => simp [hs]
    | none =>
        simp only [hs]
        have hkne : exclusions.excluded_name_keywords.isEmpty = false := by
          cases hk : exclusions.excluded_name_keywords
          · rw [hk] at hkw; simp at hkw
          · simp [hk]
        have hnn : (company.normalized_name != "") = true := by simpa using hname
        simp only [hkne, hnn, Bool.not_false, Bool.and_self, if_true]
        cases hfs : exclusions.excluded_name_keywords.findSome? (fun keyword =>
            if strContainsSub (strLower keyword).data
                (strLower company.normalized_name).data then
              some ("Excluded company type: name contains " ++ String.singleton '\'' ++
                keyword ++ String.singleton '\'' ++ " (staffing/recruitment)")
            else none) with
        | some r => simp
        | none =>
            rw [List.findSome?_eq_none_iff] at hfs
            have := hfs kw hkw
            rw [if_pos hsub] at this
            simp at this
  · have hpne : exclusions.excluded_sbi_prefixes.isEmpty = false := by
      cases hk : exclusions.excluded_sbi_prefixes
      · rw [hk] at hpre; simp at hpre
      · simp [hk]
    have hsne : (company.sbi_codes.getD []).isEmpty = false := by
      cases hk : company.sbi_codes.getD []
      · rw [hk] at hsbi; simp at hsbi
      · simp [hk]
    simp only [hpne, hsne, Bool.not_false, Bool.and_self, if_true]
    cases hfs : (company.sbi_codes.getD []).findSome? (fun sbi =>
        if exclusions.excluded_sbi_prefixes.any (fun pre => strStartsWith (pyStr sbi) pre) then
          some ("Excluded company type: SBI " ++ pyStr sbi ++ " (staffing/uitzend/detachering)")
        else none) with
    | some r => simp
    | none =>
        rw [List.findSome?_eq_none_iff] at hfs
        have h1 := hfs sbi hsbi
        have h2 : exclusions.excluded_sbi_prefixes.any
            (fun pre => strStartsWith (pyStr sbi) pre) = true :=
          List.any_eq_true.mpr ⟨pre, hpre, hstart⟩
        rw [if_pos h2] at h1
        simp at h1

/-- C1 counterexample: when a Lead row already exists for the pair, the
exclusion upsert does NOT zero the score fields — it only rewrites status,
breakdown and `scored_at`. Here the pre-existing lead has `fit_score = 50`,
and after an excluding scoring pass the status is "excluded" but
`fit_score` is still 50, not 0. -/
theorem C1_counterexample :
    ((score_company [c1company] [] [c1lead0] 1 1 staffingConfig 99).1.map
        (fun l => l.status) = some "excluded") ∧
    ((score_company [c1company] [] [c1lead0] 1 1 staffingConfig 99).1.map
        (fun l => l.fit_score) = some 50) ∧
    (50 : ℚ) ≠ 0 := by
  refine ⟨by decide, rfl, by norm_num⟩

/-- C1 (amended): with the exclusion policy enabled, if the company's
(non-empty) normalized name contains a configured excluded keyword or one
of its SBI codes starts with an excluded prefix, then scoring upserts the
pair's Lead with status "excluded" and breakdown
`{excluded_reason: reason}`, skipping the minimum-size filter, vacancy
loading and score computation entirely (the result does not depend on the
vacancy table at all); the score and stats fields are zeroed only when a
NEW Lead row is created — a pre-existing row keeps its stored score
fields. -/
theorem C1_exclusion_amended (companies : List Company) (vacancies : List Vacancy)
    (leads : List Lead) (company_id profile_id : Int) (config : ScoringCfg) (now : Int)
    (company : Company)
    (hc : companies.find? (fun c => c.id == company_id) = some company)
    (hen : config.excluded_company_types.enabled = true)
    (hcond :
      (∃ kw ∈ config.excluded_company_types.excluded_name_keywords,
        company.normalized_name ≠ "" ∧
        strContainsSub (strLower kw).data (strLower company.normalized_name).data = true) ∨
      (∃ sbi ∈ company.sbi_codes.getD [],
        ∃ pre ∈ config.excluded_company_types.excluded_sbi_prefixes,
          strStartsWith (pyStr sbi) pre = true)) :
    ∃ reason,
      check_excluded_company_types company config.excluded_company_types = some reason ∧
      ((score_company companies vacancies leads company_id profile_id config now).1.map
          (fun l => l.status) = some "excluded") ∧
      ((score_company companies vacancies leads company_id profile_id config now).1.map
          (fun l => l.scoring_breakdown) = some (.excluded reason)) ∧
      (findLead leads company_id profile_id = none →
        (score_company companies vacancies leads company_id profile_id config now).1
          = some
            { company_id := company_id, search_profile_id := profile_id,
              fit_score := 0, timing_score := 0, composite_score := 0,
              status := "excluded", scoring_breakdown := .excluded reason,
              vacancy_count := 0, oldest_vacancy_days := 0, platform_count := 0,
              scored_at := some now }) ∧
      (∀ vacancies' : List Vacancy,
        score_company companies vacancies' leads company_id profile_id config now
          = score_company companies vacancies leads company_id profile_id config now) := by
  have hs := check_excluded_isSome company config.excluded_company_types hen hcond
  rw [Option.isSome_iff_exists] at hs
  obtain ⟨reason, hr⟩ := hs
  refine ⟨reason, hr, ?_, ?_, ?_, ?_⟩
  · rw [score_company, hc]
    simp only [hr]
    cases hfl : findLead leads company_id profile_id with
    | none => simp [mark_excluded, hfl]
    | some l0 => simp [mark_excluded, hfl]
  · rw [score_company, hc]
    simp only [hr]
    cases hfl : findLead leads company_id profile_id with
    | none => simp [mark_excluded, hfl]
    | some l0 => simp [mark_excluded, hfl]
  · intro hfl
    rw [score_company, hc]
    simp only [hr]
    simp [mark_excluded, hfl]
  · intro vacancies'
    rw [score_company, hc, score_company, hc]
    simp only [hr]

/-- Witness for C1 (amended) at a concrete company, config and vacancy
table, with no pre-existing lead. -/
theorem C1_exclusion_amended_witness :
    ∃ reason,
      check_excluded_company_types c1company staffingConfig.excluded_company_types
        = some reason ∧
      ((score_company [c1company] [c4vac] [] 1 1 staffingConfig 99).1.map
          (fun l => l.status) = some "excluded") ∧
      ((score_company [c1company] [c4vac] [] 1 1 staffingConfig 99).1.map
          (fun l => l.scoring_breakdown) = some (.excluded reason)) ∧
      (findLead [] 1 1 = none →
        (score_company [c1company] [c4vac] [] 1 1 staffingConfig 99).1
          = some
            { company_id := 1, search_profile_id := 1,
              fit_score := 0, timing_score := 0, composite_score := 0,
              status := "excluded", scoring_breakdown := .excluded reason,
              vacancy_count := 0, oldest_vacancy_days := 0, platform_count := 0,
              scored_at := some 99 }) ∧
      (∀ vacancies' : List Vacancy,
        score_company [c1company] vacancies' [] 1 1 staffingConfig 99
          = score_company [c1company] [c4vac] [] 1 1 staffingConfig 99) :=
  C1_exclusion_amended [c1company] [c4vac] [] 1 1 staffingConfig 99 c1company
    rfl rfl
    (Or.inl ⟨"staffing", by decide, by decide, by decide⟩)

/-! ### Claim C2 -/

/-- C2: for a scored (non-excluded) company with at least one active
vacancy, the upserted Lead's `composite_score` equals
`round(fit·fit_weight + timing·timing_weight, 1)` for the loaded config's
weights, and the computed status compares the (un-rounded) composite
against the hot threshold (default 75), then the warm threshold (default
50), else "monitor". (The dismissed override, claim C3, is excluded by
hypothesis here.) -/
theorem C2_composite_and_status (companies : List Company) (vacancies : List Vacancy)
    (leads : List Lead) (company_id profile_id : Int) (config : ScoringCfg) (now : Int)
    (company : Company)
    (hc : companies.find? (fun c => c.id == company_id) = some company)
    (hex : check_excluded_company_types company config.excluded_company_types = none)
    (hmin : check_minimum_filters company config.minimum_filters = none)
    (hvac : activeVacancies vacancies company_id profile_id ≠ [])
    (hdis : ∀ l0, findLead leads company_id profile_id = some l0 → l0.status ≠ "dismissed") :
    (score_company companies vacancies leads company_id profile_id config now).1.map
        (fun l => l.composite_score)
      = some (pyRound1
          ((compute_fit_score company (activeVacancies vacancies company_id profile_id)
              config.fit_criteria).score * config.fit_weight
            + (compute_timing_score (activeVacancies vacancies company_id profile_id)
              config.timing_signals now).score * config.timing_weight)) ∧
    (score_company companies vacancies leads company_id profile_id config now).1.map
        (fun l => l.status)
      = some (
          if (compute_fit_score company (activeVacancies vacancies company_id profile_id)
                config.fit_criteria).score * config.fit_weight
              + (compute_timing_score (activeVacancies vacancies company_id profile_id)
                config.timing_signals now).score * config.timing_weight
              ≥ config.hot_threshold.getD 75 then "hot"
          else if (compute_fit_score company (activeVacancies vacancies company_id profile_id)
                config.fit_criteria).score * config.fit_weight
              + (compute_timing_score (activeVacancies vacancies company_id profile_id)
                config.timing_signals now).score * config.timing_weight
              ≥ config.warm_threshold.getD 50 then "warm"
          else "monitor") := by
  have hne : (activeVacancies vacancies company_id profile_id).isEmpty = false := by
    simpa [List.isEmpty_iff] using hvac
  rw [score_company, hc]
  simp only [hex, hmin, hne, Bool.false_eq_true, if_false]
  cases hfl : findLead leads company_id profile_id with
  | none => simp
  | some l0 =>
      have hd := hdis l0 hfl
      have hd' : (l0.status != "dismissed") = true := by simpa using hd
      simp [hd']

/-- Witness for C2 at a concrete non-excluded company with one active
vacancy and an empty lead table. -/
theorem C2_composite_and_status_witness :
    (score_company [plainCompany] [c4vac] [] 1 1 plainConfig 99).1.map
        (fun l => l.composite_score)
      = some (pyRound1
          ((compute_fit_score plainCompany (activeVacancies [c4vac] 1 1)
              plainConfig.fit_criteria).score * plainConfig.fit_weight
            + (compute_timing_score (activeVacancies [c4vac] 1 1)
              plainConfig.timing_signals 99).score * plainConfig.timing_weight)) ∧
    (score_company [plainCompany] [c4vac] [] 1 1 plainConfig 99).1.map
        (fun l => l.status)
      = some (
          if (compute_fit_score plainCompany (activeVacancies [c4vac] 1 1)
                plainConfig.fit_criteria).score * plainConfig.fit_weight
              + (compute_timing_score (activeVacancies [c4vac] 1 1)
                plainConfig.timing_signals 99).score * plainConfig.timing_weight
              ≥ plainConfig.hot_threshold.getD 75 then "hot"
          else if (compute_fit_score plainCompany (activeVacancies [c4vac] 1 1)
                plainConfig.fit_criteria).score * plainConfig.fit_weight
              + (compute_timing_score (activeVacancies [c4vac] 1 1)
                plainConfig.timing_signals 99).score * plainConfig.timing_weight
              ≥ plainConfig.warm_threshold.getD 50 then "warm"
          else "monitor") :=
  C2_composite_and_status [plainCompany] [c4vac] [] 1 1 plainConfig 99 plainCompany
    rfl rfl rfl
    (by rw [show activeVacancies [c4vac] 1 1 = [c4vac] from rfl]
        exact List.cons_ne_nil _ _)
    (fun l0 h => by
      rw [show findLead ([] : List Lead) 1 1 = none from rfl] at h
      cases h)

/-! ### Claim C3 -/

/-- C3: an existing Lead whose status is "dismissed" keeps that status
through a non-excluding scoring pass while fit/timing/composite scores,
breakdown and the stats fields are all refreshed; but when the company is
excluded — whether by the excluded-company-types check or, that check
passing, by the minimum-size filter — the status is forced to "excluded"
even though the current status is "dismissed". -/
theorem C3_dismissed_sticky (companies : List Company) (vacancies : List Vacancy)
    (leads : List Lead) (company_id profile_id : Int) (config : ScoringCfg) (now : Int)
    (company : Company) (l0 : Lead)
    (hc : companies.find? (fun c => c.id == company_id) = some company)
    (hl : findLead leads company_id profile_id = some l0)
    (hdis : l0.status = "dismissed") :
    (check_excluded_company_types company config.excluded_company_types = none →
     check_minimum_filters company config.minimum_filters = none →
     activeVacancies vacancies company_id profile_id ≠ [] →
     ((score_company companies vacancies leads company_id profile_id config now).1.map
        (fun l => l.status) = some "dismissed") ∧
     ((score_company companies vacancies leads company_id profile_id config now).1.map
        (fun l => (l.fit_score, l.timing_score, l.composite_score))
       = some
          ((compute_fit_score company (activeVacancies vacancies company_id profile_id)
              config.fit_criteria).score,
           (compute_timing_score (activeVacancies vacancies company_id profile_id)
              config.timing_signals now).score,
           pyRound1
             ((compute_fit_score company (activeVacancies vacancies company_id profile_id)
                config.fit_criteria).score * config.fit_weight
              + (compute_timing_score (activeVacancies vacancies company_id profile_id)
                config.timing_signals now).score * config.timing_weight))) ∧
     ((score_company companies vacancies leads company_id profile_id config now).1.map
        (fun l => l.scoring_breakdown)
       = some (.scored
          (compute_fit_score company (activeVacancies vacancies company_id profile_id)
            config.fit_criteria)
          (compute_timing_score (activeVacancies vacancies company_id profile_id)
            config.timing_signals now)
          config.fit_weight config.timing_weight)) ∧
     ((score_company companies vacancies leads company_id profile_id config now).1.map
        (fun l => (l.vacancy_count, l.oldest_vacancy_days, l.platform_count, l.scored_at))
       = some
          ((activeVacancies vacancies company_id profile_id).length,
           oldestVacancyDays (activeVacancies vacancies company_id profile_id) now,
           ((activeVacancies vacancies company_id profile_id).map
              (fun v => v.source)).eraseDups.length,
           some now))) ∧
    (∀ reason,
      (check_excluded_company_types company config.excluded_company_types
          = some reason ∨
       (check_excluded_company_types company config.excluded_company_types = none ∧
        check_minimum_filters company config.minimum_filters = some reason)) →
      (score_company companies vacancies leads company_id profile_id config now).1.map
        (fun l => l.status) = some "excluded") := by
  constructor
  · intro hex hmin hvac
    have hne : (activeVacancies vacancies company_id profile_id).isEmpty = false := by
      simpa [List.isEmpty_iff] using hvac
    have hd' : (l0.status != "dismissed") = false := by simp [hdis]
    rw [score_company, hc]
    simp only [hex, hmin, hne, Bool.false_eq_true, if_false]
    simp [hl, hd', hdis]
  · rintro reason (hr | ⟨hex, hmin⟩)
    · rw [score_company, hc]
      simp only [hr]
      simp [mark_excluded, hl]
    · rw [score_company, hc]
      simp only [hex, hmin]
      simp [mark_excluded, hl]

/-- Witness for C3 at concrete inputs: the dismissed status survives a
normal scoring pass; an excluding pass overrides it via the
excluded-company-types route, and also via the minimum-size-filter
route. -/
theorem C3_dismissed_sticky_witness :
    ((score_company [plainCompany] [c4vac] [dismissedLead] 1 1 plainConfig 99).1.map
        (fun l => l.status) = some "dismissed") ∧
    ((score_company [c1company] [c4vac] [dismissedLead] 1 1 staffingConfig 99).1.map
        (fun l => l.status) = some "excluded") ∧
    ((score_company [smallCompany] [c4vac] [dismissedLead] 1 1 sizeFilterConfig 99).1.map
        (fun l => l.status) = some "excluded") := by
  have h1 := C3_dismissed_sticky [plainCompany] [c4vac] [dismissedLead] 1 1 plainConfig 99
    plainCompany dismissedLead rfl rfl rfl
  have h2 := C3_dismissed_sticky [c1company] [c4vac] [dismissedLead] 1 1 staffingConfig 99
    c1company dismissedLead rfl rfl rfl
  have h3 := C3_dismissed_sticky [smallCompany] [c4vac] [dismissedLead] 1 1
    sizeFilterConfig 99 smallCompany dismissedLead rfl rfl rfl
  refine ⟨(h1.1 rfl rfl ?_).1, ?_, ?_⟩
  · rw [show activeVacancies [c4vac] 1 1 = [c4vac] from rfl]
    exact List.cons_ne_nil _ _
  · have hs : (check_excluded_company_types c1company
        staffingConfig.excluded_company_types).isSome = true := by decide
    rw [Option.isSome_iff_exists] at hs
    obtain ⟨r, hr⟩ := hs
    exact h2.2 r (Or.inl hr)
  · exact h3.2 (tooSmallMsg "1-9" "50-99") (Or.inr ⟨by decide, by decide⟩)

/-! ### Claim C9 -/

/-- C9: when the company is excluded — by the excluded-company-types
check, or by the minimum-size filter once that check passes — and a Lead
row for the pair already exists, the exclusion upsert changes ONLY
status, scoring_breakdown and scored_at — the row's fit_score,
timing_score, composite_score, vacancy_count, oldest_vacancy_days and
platform_count keep their stored values; zeroed score fields are written
only when no row exists and a new one is inserted. -/
theorem C9_exclusion_frame (companies : List Company) (vacancies : List Vacancy)
    (leads : List Lead) (company_id profile_id : Int) (config : ScoringCfg) (now : Int)
    (company : Company) (reason : String)
    (hc : companies.find? (fun c => c.id == company_id) = some company)
    (hr : check_excluded_company_types company config.excluded_company_types
        = some reason ∨
      (check_excluded_company_types company config.excluded_company_types = none ∧
       check_minimum_filters company config.minimum_filters = some reason)) :
    (∀ l0, findLead leads company_id profile_id = some l0 →
      (score_company companies vacancies leads company_id profile_id config now).1
        = some { l0 with
                  status := "excluded",
                  scoring_breakdown := Breakdown.excluded reason,
                  scored_at := some now }) ∧
    (findLead leads company_id profile_id = none →
      (score_company companies vacancies leads company_id profile_id config now).1
        = some
          { company_id := company_id, search_profile_id := profile_id,
            fit_score := 0, timing_score := 0, composite_score := 0,
            status := "excluded", scoring_breakdown := Breakdown.excluded reason,
            vacancy_count := 0, oldest_vacancy_days := 0, platform_count := 0,
            scored_at := some now }) := by
  constructor
  · intro l0 hl
    rcases hr with hr | ⟨hex, hmin⟩
    · rw [score_company, hc]
      simp only [hr]
      simp [mark_excluded, hl]
    · rw [score_company, hc]
      simp only [hex, hmin]
      simp [mark_excluded, hl]
  · intro hl
    rcases hr with hr | ⟨hex, hmin⟩
    · rw [score_company, hc]
      simp only [hr]
      simp [mark_excluded, hl]
    · rw [score_company, hc]
      simp only [hex, hmin]
      simp [mark_excluded, hl]

/-- Witness for C9: the concrete pre-existing lead keeps its score and
stats fields through an excluding pass, both when the exclusion comes
from the excluded-company-types check and when it comes from the
minimum-size filter. -/
theorem C9_exclusion_frame_witness :
    (∃ reason,
      check_excluded_company_types c1company staffingConfig.excluded_company_types
        = some reason ∧
      (score_company [c1company] [] [c1lead0] 1 1 staffingConfig 99).1
        = some { c1lead0 with
                  status := "excluded",
                  scoring_breakdown := Breakdown.excluded reason,
                  scored_at := some 99 }) ∧
    ((score_company [smallCompany] [] [c1lead0] 1 1 sizeFilterConfig 99).1
      = some { c1lead0 with
                status := "excluded",
                scoring_breakdown := Breakdown.excluded (tooSmallMsg "1-9" "50-99"),
                scored_at := some 99 }) := by
  have hs : (check_excluded_company_types c1company
      staffingConfig.excluded_company_types).isSome = true := by decide
  rw [Option.isSome_iff_exists] at hs
  obtain ⟨r, hr⟩ := hs
  refine ⟨⟨r, hr,
    (C9_exclusion_frame [c1company] [] [c1lead0] 1 1 staffingConfig 99 c1company r
      rfl (Or.inl hr)).1 c1lead0 rfl⟩, ?_⟩
  exact (C9_exclusion_frame [smallCompany] [] [c1lead0] 1 1 sizeFilterConfig 99
    smallCompany (tooSmallMsg "1-9" "50-99") rfl
    (Or.inr ⟨by decide, by decide⟩)).1 c1lead0 rfl

/-! ### Claim C8: support lemmas -/

theorem mem_dedupKeysAux {a : String} : ∀ {l seen : List String},
    a ∈ dedupKeysAux seen l ↔ a ∈ l ∧ a ∉ seen := by
  intro l
  induction l with
  | nil => intro seen; simp [dedupKeysAux]
  | cons k rest ih =>
    intro seen
    rw [dedupKeysAux]
    by_cases hk : seen.contains k
    · rw [if_pos hk]
      rw [ih]
      have hks : k ∈ seen := by simpa [List.elem_iff] using hk
      constructor
      · rintro ⟨h1, h2⟩
        exact ⟨List.mem_cons_of_mem _ h1, h2⟩
      · rintro ⟨h1, h2⟩
        rcases List.mem_cons.mp h1 with h | h
        · subst h; exact absurd hks h2
        · exact ⟨h, h2⟩
    · rw [if_neg hk]
      have hks : k ∉ seen := by
        intro h
        exact hk (by simpa [List.elem_iff] using h)
      constructor
      · intro h
        rcases List.mem_cons.mp h with h | h
        · subst h; exact ⟨List.mem_cons_self _ _, hks⟩
        · rw [ih] at h
          refine ⟨List.mem_cons_of_mem _ h.1, fun hs => h.2 (List.mem_cons_of_mem _ hs)⟩
      · rintro ⟨h1, h2⟩
        rcases List.mem_cons.mp h1 with h | h
        · subst h; exact List.mem_cons_self _ _
        · by_cases hak : a = k
          · subst hak; exact List.mem_cons_self _ _
          · refine List.mem_cons_of_mem _ (ih.mpr ⟨h, ?_⟩)
            intro hs
            rcases List.mem_cons.mp hs with h' | h'
            · exact hak h'
            · exact h2 h'

theorem mem_dedupKeys {a : String} {l : List String} : a ∈ dedupKeys l ↔ a ∈ l := by
  rw [dedupKeys, mem_dedupKeysAux]
  simp

theorem nodup_dedupKeysAux : ∀ (l seen : List String),
    (dedupKeysAux seen l).Nodup := by
  intro l
  induction l with
  | nil => intro seen; simp [dedupKeysAux]
  | cons k rest ih =>
    intro seen
    rw [dedupKeysAux]
    by_cases hk : seen.contains k
    · rw [if_pos hk]; exact ih seen
    · rw [if_neg hk]
      refine List.Nodup.cons ?_ (ih (k :: seen))
      intro h
      exact (mem_dedupKeysAux.mp h).2 (List.mem_cons_self _ _)

theorem nodup_dedupKeys (l : List String) : (dedupKeys l).Nodup :=
  nodup_dedupKeysAux l []

theorem nodup_duplicateKvks (db : DedupDB) : (duplicateKvks db).Nodup :=
  (nodup_dedupKeys _).filter _

@[simp]
theorem merge_company_data_id (s d : CompanyRow) :
    (merge_company_data s d).id = s.id := rfl

@[simp]
theorem merge_company_data_kvk (s d : CompanyRow) :
    (merge_company_data s d).kvk_number = s.kvk_number := rfl

@[simp]
theorem merge_company_data_created (s d : CompanyRow) :
    (merge_company_data s d).created_at = s.created_at := rfl

theorem foldl_merge_id : ∀ (dups : List CompanyRow) (s : CompanyRow),
    (dups.foldl merge_company_data s).id = s.id := by
  intro dups
  induction dups with
  | nil => intro s; rfl
  | cons d rest ih => intro s; rw [List.foldl_cons, ih, merge_company_data_id]

theorem foldl_merge_kvk : ∀ (dups : List CompanyRow) (s : CompanyRow),
    (dups.foldl merge_company_data s).kvk_number = s.kvk_number := by
  intro dups
  induction dups with
  | nil => intro s; rfl
  | cons d rest ih => intro s; rw [List.foldl_cons, ih, merge_company_data_kvk]

theorem foldl_merge_created : ∀ (dups : List CompanyRow) (s : CompanyRow),
    (dups.foldl merge_company_data s).created_at = s.created_at := by
  intro dups
  induction dups with
  | nil => intro s; rfl
  | cons d rest ih => intro s; rw [List.foldl_cons, ih, merge_company_data_created]

/-- The first non-null value in a list of optional values. -/
def firstSome (l : List (Option JVal)) : Option JVal :=
  l.foldl (fun acc o => match acc with | some v => some v | none => o) none

theorem foldl_some (l : List (Option JVal)) (v : JVal) :
    l.foldl (fun acc o => match acc with | some v => some v | none => o) (some v)
      = some v := by
  induction l with
  | nil => rfl
  | cons o rest ih => rw [List.foldl_cons]; exact ih

theorem firstSome_cons (a : Option JVal) (l : List (Option JVal)) :
    firstSome (a :: l) = match a with | some v => some v | none => firstSome l := by
  cases a with
  | some v => rw [firstSome, List.foldl_cons]; exact foldl_some l v
  | none => rfl

/-- Null-filling along the sorted group: after folding
`_merge_company_data` over the duplicates, each merge field holds the
first non-null value in survivor-then-duplicates order — the survivor's
own value is never overwritten. -/
theorem foldl_merge_field (f : CompanyRow → Option JVal)
    (hf : ∀ s d, f (merge_company_data s d)
      = (match f s with | some v => some v | none => f d)) :
    ∀ (dups : List CompanyRow) (s : CompanyRow),
      f (dups.foldl merge_company_data s) = firstSome ((s :: dups).map f) := by
  intro dups
  induction dups with
  | nil =>
      intro s
      rw [List.foldl_nil, List.map_cons, List.map_nil, firstSome_cons]
      cases hfs : f s <;> simp [firstSome]
  | cons d rest ih =>
      intro s
      rw [List.foldl_cons, ih, List.map_cons, firstSome_cons]
      cases hfs : f s with
      | some v =>
          rw [List.map_cons, firstSome_cons, hf, hfs]
      | none =>
          rw [List.map_cons, firstSome_cons, hf, hfs, List.map_cons, firstSome_cons]

instance : IsTotal CompanyRow createdLE :=
  ⟨fun a b => le_total a.created_at b.created_at⟩

instance : IsTrans CompanyRow createdLE :=
  ⟨fun _ _ _ hab hbc => le_trans hab hbc⟩

theorem id_inj {cs : List CompanyRow} (h : (cs.map (fun c => c.id)).Nodup)
    {a b : CompanyRow} (ha : a ∈ cs) (hb : b ∈ cs) (hid : a.id = b.id) : a = b :=
  List.inj_on_of_nodup_map h ha hb hid

theorem filterMap_map_attr_sublist {β : Type} (g : CompanyRow → β) (cs : List CompanyRow)
    (f : CompanyRow → Option CompanyRow)
    (hf : ∀ c ∈ cs, ∀ c', f c = some c' → g c' = g c) :
    ((cs.filterMap f).map g).Sublist (cs.map g) := by
  induction cs with
  | nil => simp
  | cons c rest ih =>
      rw [List.filterMap_cons, List.map_cons]
      have ih' := ih (fun x hx c' hc' => hf x (List.mem_cons_of_mem _ hx) c' hc')
      cases hfc : f c with
      | none => exact ih'.cons (g c)
      | some c' =>
          rw [List.map_cons, hf c (List.mem_cons_self _ _) c' hfc]
          exact ih'.cons₂ (g c)

theorem mem_gfilter {k : String} {cs : List CompanyRow} {c : CompanyRow} :
    c ∈ gfilter k cs ↔ c ∈ cs ∧ c.kvk_number = some k := by
  rw [gfilter, List.mem_filter]
  simp

/-- The shape of `processKvk` on a group of at least two members. -/
theorem processKvk_eq (db : DedupDB) (k : String) (surv d0 : CompanyRow)
    (drest : List CompanyRow)
    (hg : List.insertionSort createdLE (gfilter k db.companies) = surv :: d0 :: drest) :
    processKvk db k =
      (let res := (d0 :: drest).foldl
        (fun (st : CompanyRow × List VacancyRow × Nat) dup =>
          (merge_company_data st.1 dup,
           st.2.1.map (reassignFn surv dup),
           st.2.2 + 1))
        (surv, db.vacancies, 0)
      let dupIds := (d0 :: drest).map (fun c => c.id)
      ({ companies := db.companies.filterMap (fun c =>
            if dupIds.contains c.id then none
            else if c.id == surv.id then some res.1 else some c),
         vacancies := res.2.1 },
       res.2.2)) := by
  rw [processKvk, hg]

/-- `processKvk` leaves the database unchanged when the group has fewer
than two members. -/
theorem processKvk_small (db : DedupDB) (k : String)
    (h : (gfilter k db.companies).length < 2) : processKvk db k = (db, 0) := by
  rw [processKvk]
  have hlen : (List.insertionSort createdLE (gfilter k db.companies)).length
      = (gfilter k db.companies).length := List.length_insertionSort _ _
  cases hg : List.insertionSort createdLE (gfilter k db.companies) with
  | nil => rfl
  | cons a t =>
      cases t with
      | nil => rfl
      | cons b t' =>
          rw [hg] at hlen
          simp at hlen
          omega

/-- The per-duplicate fold of `processKvk` decomposes into the three
independent folds: data merging onto the survivor, vacancy reassignment,
and the deletion count. -/
theorem processFold_eq (surv : CompanyRow) : ∀ (dups : List CompanyRow) (s : CompanyRow)
    (vacs : List VacancyRow) (n : Nat),
    (dups.foldl
      (fun (st : CompanyRow × List VacancyRow × Nat) dup =>
        (merge_company_data st.1 dup,
         st.2.1.map (reassignFn surv dup),
         st.2.2 + 1))
      (s, vacs, n))
    = (dups.foldl merge_company_data s,
       dups.foldl (fun vs dup => vs.map (reassignFn surv dup)) vacs,
       n + dups.length) := by
  intro dups
  induction dups with
  | nil => intro s vacs n; simp
  | cons d rest ih =>
      intro s vacs n
      rw [List.foldl_cons, List.foldl_cons, List.foldl_cons, ih]
      simp only [List.length_cons]
      have : n + 1 + rest.length = n + (rest.length + 1) := by omega
      rw [this]

theorem processKvk_ids_sublist (db : DedupDB) (k : String) :
    ((processKvk db k).1.companies.map (fun c => c.id)).Sublist
      (db.companies.map (fun c => c.id)) := by
  rw [processKvk]
  cases hg : List.insertionSort createdLE (gfilter k db.companies) with
  | nil => exact List.Sublist.refl _
  | cons surv t =>
      cases t with
      | nil => exact List.Sublist.refl _
      | cons d0 drest =>
          refine filterMap_map_attr_sublist _ _ _ ?_
          intro c _ c' hfc
          split at hfc
          · cases hfc
          · split at hfc
            · rename_i hid
              cases hfc
              rw [processFold_eq, foldl_merge_id]
              have hcs : c.id = surv.id := by simpa using hid
              exact hcs.symm
            · cases hfc
              rfl

theorem processKvk_created_sublist (db : DedupDB) (k : String)
    (hids : (db.companies.map (fun c => c.id)).Nodup) :
    ((processKvk db k).1.companies.map (fun c => c.created_at)).Sublist
      (db.companies.map (fun c => c.created_at)) := by
  rw [processKvk]
  cases hg : List.insertionSort createdLE (gfilter k db.companies) with
  | nil => exact List.Sublist.refl _
  | cons surv t =>
      cases t with
      | nil => exact List.Sublist.refl _
      | cons d0 drest =>
          have hsurv : surv ∈ db.companies := by
            have : surv ∈ List.insertionSort createdLE (gfilter k db.companies) := by
              rw [hg]; exact List.mem_cons_self _ _
            exact (mem_gfilter.mp ((List.mem_insertionSort _).mp this)).1
          refine filterMap_map_attr_sublist _ _ _ ?_
          intro c hc c' hfc
          split at hfc
          · cases hfc
          · split at hfc
            · rename_i hid
              cases hfc
              rw [processFold_eq, foldl_merge_created]
              have hcs : c.id = surv.id := by simpa using hid
              rw [id_inj hids hc hsurv hcs]
            · cases hfc
              rfl

theorem length_filterMap_add (f : CompanyRow → Option CompanyRow) (q : CompanyRow → Bool)
    (hq : ∀ c, (f c).isSome = !q c) :
    ∀ cs : List CompanyRow, (cs.filterMap f).length + cs.countP q = cs.length := by
  intro cs
  induction cs with
  | nil => simp
  | cons c rest ih =>
      rw [List.filterMap_cons, List.countP_cons]
      have hqc := hq c
      cases hfc : f c with
      | none =>
          rw [hfc] at hqc
          have h1 : q c = true := by simpa using hqc.symm
          simp only [h1, if_true, List.length_cons]
          omega
      | some c' =>
          rw [hfc] at hqc
          have h1 : q c = false := by simpa using hqc.symm
          simp only [h1, Bool.false_eq_true, if_false, List.length_cons]
          omega

theorem countP_contains_ids (ids dupIds : List Nat)
    (hn : ids.Nodup) (hdn : dupIds.Nodup) (hsub : ∀ i ∈ dupIds, i ∈ ids) :
    ids.countP (fun i => dupIds.contains i) = dupIds.length := by
  rw [List.countP_eq_length_filter]
  have h1 : (ids.filter (fun i => dupIds.contains i)).Nodup := hn.filter _
  have hmem : ∀ i, i ∈ ids.filter (fun i => dupIds.contains i) ↔ i ∈ dupIds := by
    intro i
    rw [List.mem_filter]
    constructor
    · rintro ⟨_, h⟩
      simpa [List.elem_iff] using h
    · intro h
      exact ⟨hsub i h, by simpa [List.elem_iff] using h⟩
  exact ((List.perm_ext_iff_of_nodup h1 hdn).mpr hmem).length_eq

theorem processKvk_count (db : DedupDB) (k : String)
    (hids : (db.companies.map (fun c => c.id)).Nodup) :
    (processKvk db k).1.companies.length + (processKvk db k).2
      = db.companies.length := by
  rw [processKvk]
  cases hg : List.insertionSort createdLE (gfilter k db.companies) with
  | nil => simp
  | cons surv t =>
      cases t with
      | nil => simp
      | cons d0 drest =>
          simp only [processFold_eq]
          have hmem : ∀ c ∈ surv :: d0 :: drest, c ∈ db.companies ∧ c.kvk_number = some k := by
            intro c hc
            have : c ∈ List.insertionSort createdLE (gfilter k db.companies) := by
              rw [hg]; exact hc
            exact mem_gfilter.mp ((List.mem_insertionSort _).mp this)
          have hgnodup : (surv :: d0 :: drest).Nodup := by
            have : (gfilter k db.companies).Nodup :=
              (List.Nodup.of_map _ hids).filter _
            have h2 : (List.insertionSort createdLE (gfilter k db.companies)).Nodup :=
              (List.perm_insertionSort _ _).nodup_iff.mpr this
            rw [hg] at h2
            exact h2
          have hdups_nodup_ids : ((d0 :: drest).map (fun c => c.id)).Nodup := by
            refine (List.Nodup.of_cons hgnodup).map_on ?_
            intro a ha b hb hab
            exact id_inj hids (hmem a (List.mem_cons_of_mem _ ha)).1
              (hmem b (List.mem_cons_of_mem _ hb)).1 hab
          have hsub : ∀ i ∈ (d0 :: drest).map (fun c => c.id),
              i ∈ db.companies.map (fun c => c.id) := by
            intro i hi
            rcases List.mem_map.mp hi with ⟨d, hd, hdi⟩
            exact hdi ▸ List.mem_map_of_mem _ (hmem d (List.mem_cons_of_mem _ hd)).1
          have hQ := length_filterMap_add
            (fun c =>
              if ((d0 :: drest).map (fun c => c.id)).contains c.id then none
              else if c.id == surv.id then
                some ((d0 :: drest).foldl merge_company_data surv)
              else some c)
            (fun c => ((d0 :: drest).map (fun c => c.id)).contains c.id)
            (by
              intro c
              dsimp only
              by_cases h1 : (((d0 :: drest).map (fun x => x.id)).contains c.id) = true
              · rw [h1]
                simp
              · have h1b : (((d0 :: drest).map (fun x => x.id)).contains c.id) = false := by
                  simpa using h1
                rw [h1b]
                by_cases h2 : (c.id == surv.id) = true
                · rw [h2]
                  simp
                · have h2b : (c.id == surv.id) = false := by simpa using h2
                  rw [h2b]
                  simp)
            db.companies
          have hcount : db.companies.countP
              (fun c => ((d0 :: drest).map (fun x => x.id)).contains c.id)
              = ((d0 :: drest).map (fun x => x.id)).length := by
            have := countP_contains_ids (db.companies.map (fun c => c.id))
              ((d0 :: drest).map (fun c => c.id)) hids hdups_nodup_ids hsub
            rw [List.countP_map] at this
            exact this
          simp only [List.length_map] at hcount
          rw [hcount] at hQ
          simpa using hQ

theorem gfilter_cons (k : String) (c : CompanyRow) (cs : List CompanyRow) :
    gfilter k (c :: cs)
      = if c.kvk_number = some k then c :: gfilter k cs else gfilter k cs := by
  rw [gfilter, List.filter_cons]
  by_cases h : c.kvk_number = some k
  · rw [if_pos h, if_pos (by simpa using h)]
    rfl
  · rw [if_neg h, if_neg (by simpa using h)]
    rfl

/-- A `filterMap` whose function fixes every company of KvK group `k` and
never moves a company into group `k` leaves the group untouched. -/
theorem gfilter_filterMap_eq (k : String) (f : CompanyRow → Option CompanyRow) :
    ∀ cs : List CompanyRow,
    (∀ c ∈ cs, c.kvk_number = some k → f c = some c) →
    (∀ c ∈ cs, ∀ c', f c = some c' → c'.kvk_number = some k → c.kvk_number = some k) →
    gfilter k (cs.filterMap f) = gfilter k cs := by
  intro cs
  induction cs with
  | nil => intro _ _; rfl
  | cons c rest ih =>
      intro hf hf2
      have ihr := ih (fun x hx => hf x (List.mem_cons_of_mem _ hx))
        (fun x hx => hf2 x (List.mem_cons_of_mem _ hx))
      rw [List.filterMap_cons, gfilter_cons]
      by_cases hck : c.kvk_number = some k
      · rw [if_pos hck, hf c (List.mem_cons_self _ _) hck, gfilter_cons, if_pos hck, ihr]
      · rw [if_neg hck]
        cases hfc : f c with
        | none => exact ihr
        | some c' =>
            rw [gfilter_cons]
            have hc'k : ¬c'.kvk_number = some k := by
              intro h
              exact hck (hf2 c (List.mem_cons_self _ _) c' hfc h)
            rw [if_neg hc'k, ihr]

theorem filterMap_eq_singleton (g : CompanyRow → Option CompanyRow) (M : CompanyRow) :
    ∀ (cs : List CompanyRow) (x : CompanyRow), x ∈ cs → cs.Nodup →
    g x = some M → (∀ c ∈ cs, c ≠ x → g c = none) →
    cs.filterMap g = [M] := by
  intro cs
  induction cs with
  | nil => intro x hx; cases hx
  | cons c rest ih =>
      intro x hx hnd hgx hother
      rw [List.filterMap_cons]
      rcases List.mem_cons.mp hx with hcx | hcx
      · subst hcx
        rw [hgx]
        have hrest : ∀ c' ∈ rest, g c' = none := by
          intro c' hc'
          refine hother c' (List.mem_cons_of_mem _ hc') ?_
          intro h
          subst h
          exact (List.nodup_cons.mp hnd).1 hc'
        have : rest.filterMap g = [] := by
          rw [List.filterMap_eq_nil_iff]
          exact hrest
        rw [this]
      · have hcne : c ≠ x := by
          intro h
          subst h
          exact (List.nodup_cons.mp hnd).1 hcx
        rw [hother c (List.mem_cons_self _ _) hcne]
        exact ih x hcx (List.nodup_cons.mp hnd).2 hgx
          (fun c' hc' => hother c' (List.mem_cons_of_mem _ hc'))

theorem group_facts (db : DedupDB) (k : String) (surv d0 : CompanyRow)
    (drest : List CompanyRow)
    (hids : (db.companies.map (fun c => c.id)).Nodup)
    (hg : List.insertionSort createdLE (gfilter k db.companies) = surv :: d0 :: drest) :
    (∀ c ∈ surv :: d0 :: drest, c ∈ db.companies ∧ c.kvk_number = some k) ∧
    (surv :: d0 :: drest).Nodup ∧
    (∀ d ∈ d0 :: drest, surv.id ≠ d.id) ∧
    ((d0 :: drest).map (fun c => c.id)).Nodup := by
  have hmem : ∀ c ∈ surv :: d0 :: drest, c ∈ db.companies ∧ c.kvk_number = some k := by
    intro c hc
    have : c ∈ List.insertionSort createdLE (gfilter k db.companies) := by
      rw [hg]; exact hc
    exact mem_gfilter.mp ((List.mem_insertionSort _).mp this)
  have hgnodup : (surv :: d0 :: drest).Nodup := by
    have h1 : (gfilter k db.companies).Nodup := (List.Nodup.of_map _ hids).filter _
    have h2 : (List.insertionSort createdLE (gfilter k db.companies)).Nodup :=
      (List.perm_insertionSort _ _).nodup_iff.mpr h1
    rw [hg] at h2
    exact h2
  refine ⟨hmem, hgnodup, ?_, ?_⟩
  · intro d hd hidq
    have hds : surv = d :=
      id_inj hids (hmem surv (List.mem_cons_self _ _)).1
        (hmem d (List.mem_cons_of_mem _ hd)).1 hidq
    exact (List.nodup_cons.mp hgnodup).1 (hds ▸ hd)
  · refine (List.Nodup.of_cons hgnodup).map_on ?_
    intro a ha b hb hab
    exact id_inj hids (hmem a (List.mem_cons_of_mem _ ha)).1
      (hmem b (List.mem_cons_of_mem _ hb)).1 hab

/-- Frame: processing KvK number `kp` does not change any other KvK
group. -/
theorem processKvk_gfilter_other (db : DedupDB) (kp k : String) (hne : k ≠ kp)
    (hids : (db.companies.map (fun c => c.id)).Nodup) :
    gfilter k (processKvk db kp).1.companies = gfilter k db.companies := by
  rw [processKvk]
  cases hg : List.insertionSort createdLE (gfilter kp db.companies) with
  | nil => rfl
  | cons surv t =>
      cases t with
      | nil => rfl
      | cons d0 drest =>
          obtain ⟨hmem, hgnodup, hsurvne, hdidn⟩ := group_facts db kp surv d0 drest hids hg
          refine gfilter_filterMap_eq k _ db.companies ?_ ?_
          · intro c hc hck
            have h1 : (((d0 :: drest).map (fun x => x.id)).contains c.id) = false := by
              rw [List.contains_eq_any_beq, List.any_eq_false]
              intro i hi
              rcases List.mem_map.mp hi with ⟨d, hd, hdi⟩
              subst hdi
              have hcd : c ≠ d := by
                intro hEq
                have hkp := (hmem d (List.mem_cons_of_mem _ hd)).2
                rw [← hEq, hck] at hkp
                exact hne (Option.some.inj hkp)
              intro hEq
              have hEq2 : c.id = d.id := by simpa using hEq
              exact hcd (id_inj hids hc (hmem d (List.mem_cons_of_mem _ hd)).1 hEq2)
            have h2 : (c.id == surv.id) = false := by
              have hcs : c ≠ surv := by
                intro hEq
                have hkp := (hmem surv (List.mem_cons_self _ _)).2
                rw [← hEq, hck] at hkp
                exact hne (Option.some.inj hkp)
              refine beq_eq_false_iff_ne.mpr ?_
              intro hEq
              exact hcs (id_inj hids hc (hmem surv (List.mem_cons_self _ _)).1 hEq)
            rw [h1, h2]
            simp
          · intro c hc c' hfc hc'k
            split at hfc
            · cases hfc
            · split at hfc
              · rename_i hid
                cases hfc
                rw [processFold_eq] at hc'k
                rw [foldl_merge_kvk] at hc'k
                have := (hmem surv (List.mem_cons_self _ _)).2
                rw [this] at hc'k
                exact absurd (by simpa using hc'k) hne.symm
              · cases hfc
                exact hc'k

theorem mem_foldl_reassign (surv : CompanyRow) :
    ∀ (dups : List CompanyRow) (vacs : List VacancyRow) (v : VacancyRow),
    v ∈ vacs → (∀ d ∈ dups, reassignFn surv d v = v) →
    v ∈ dups.foldl (fun vs dup => vs.map (reassignFn surv dup)) vacs := by
  intro dups
  induction dups with
  | nil => intro vacs v hv _; exact hv
  | cons d rest ih =>
      intro vacs v hv hfix
      rw [List.foldl_cons]
      refine ih _ v ?_ (fun d' hd' => hfix d' (List.mem_cons_of_mem _ hd'))
      have := List.mem_map_of_mem (reassignFn surv d) hv
      rw [hfix d (List.mem_cons_self _ _)] at this
      exact this

theorem reassignFn_fix (surv d : CompanyRow) (v : VacancyRow)
    (h : v.company_id ≠ some d.id) : reassignFn surv d v = v := by
  rw [reassignFn, if_neg]
  simpa using h

/-- Frame: processing KvK number `kp` leaves every vacancy that points at a
company of a different KvK group untouched (as a row of the new table). -/
theorem processKvk_vac_frame (db : DedupDB) (kp k : String) (hne : k ≠ kp)
    (hids : (db.companies.map (fun c => c.id)).Nodup)
    (v : VacancyRow) (hv : v ∈ db.vacancies) (c : CompanyRow) (hc : c ∈ db.companies)
    (hck : c.kvk_number = some k) (hvc : v.company_id = some c.id) :
    v ∈ (processKvk db kp).1.vacancies := by
  rw [processKvk]
  cases hg : List.insertionSort createdLE (gfilter kp db.companies) with
  | nil => exact hv
  | cons surv t =>
      cases t with
      | nil => exact hv
      | cons d0 drest =>
          obtain ⟨hmem, hgnodup, hsurvne, hdidn⟩ := group_facts db kp surv d0 drest hids hg
          simp only [processFold_eq]
          refine mem_foldl_reassign surv _ _ v hv ?_
          intro d hd
          refine reassignFn_fix surv d v ?_
          rw [hvc]
          intro hEq
          have hcid : c.id = d.id := by simpa using hEq
          have hcd : c = d :=
            id_inj hids hc (hmem d (List.mem_cons_of_mem _ hd)).1 hcid
          have := (hmem d (List.mem_cons_of_mem _ hd)).2
          rw [← hcd, hck] at this
          exact hne (Option.some.inj this)

theorem mem_foldl_reassign_target (surv : CompanyRow) :
    ∀ (dups : List CompanyRow) (vacs : List VacancyRow) (v : VacancyRow)
    (d : CompanyRow), d ∈ dups → v ∈ vacs → v.company_id = some d.id →
    (∀ d' ∈ dups, surv.id ≠ d'.id) →
    ((dups.map (fun c => c.id)).Nodup) →
    { v with company_id := some surv.id }
      ∈ dups.foldl (fun vs dup => vs.map (reassignFn surv dup)) vacs := by
  intro dups
  induction dups with
  | nil => intro vacs v d hd; cases hd
  | cons d0 rest ih =>
      intro vacs v d hd hv hvc hsurvne hnd
      rw [List.foldl_cons]
      rcases List.mem_cons.mp hd with hdd | hdd
      · subst hdd
        have hx : reassignFn surv d v = { v with company_id := some surv.id } := by
          rw [reassignFn, if_pos]
          simpa using hvc
        have hmem2 : { v with company_id := some surv.id }
            ∈ vacs.map (reassignFn surv d) := by
          have := List.mem_map_of_mem (reassignFn surv d) hv
          rw [hx] at this
          exact this
        refine mem_foldl_reassign surv rest _ _ hmem2 ?_
        intro d' hd'
        refine reassignFn_fix surv d' _ ?_
        simp only []
        intro hEq
        exact hsurvne d' (List.mem_cons_of_mem _ hd') (by simpa using hEq)
      · have hvfix : reassignFn surv d0 v = v := by
          refine reassignFn_fix surv d0 v ?_
          rw [hvc]
          intro hEq
          have hdid : d.id = d0.id := by simpa using hEq
          have : d0.id ∉ rest.map (fun c => c.id) := (List.nodup_cons.mp hnd).1
          exact this (hdid ▸ List.mem_map_of_mem _ hdd)
        refine ih _ v d hdd ?_ hvc
          (fun d' hd' => hsurvne d' (List.mem_cons_of_mem _ hd'))
          (List.nodup_cons.mp hnd).2
        have := List.mem_map_of_mem (reassignFn surv d0) hv
        rw [hvfix] at this
        exact this

/-- After processing its own group, the KvK group of `k` consists of
exactly the merged survivor. -/
theorem processKvk_gfilter_self (db : DedupDB) (k : String) (surv d0 : CompanyRow)
    (drest : List CompanyRow)
    (hids : (db.companies.map (fun c => c.id)).Nodup)
    (hg : List.insertionSort createdLE (gfilter k db.companies) = surv :: d0 :: drest) :
    gfilter k (processKvk db k).1.companies
      = [(d0 :: drest).foldl merge_company_data surv] := by
  obtain ⟨hmem, hgnodup, hsurvne, hdidn⟩ := group_facts db k surv d0 drest hids hg
  rw [processKvk]
  cases hg2 : List.insertionSort createdLE (gfilter k db.companies) with
  | nil => rw [hg] at hg2; cases hg2
  | cons surv' t =>
      rw [hg] at hg2
      injection hg2 with h1 h2
      subst h1
      cases t with
      | nil => cases h2
      | cons d0' drest' =>
          injection h2 with h3 h4
          subst h3
          subst h4
          simp only [processFold_eq]
          rw [gfilter, List.filter_filterMap]
          refine filterMap_eq_singleton _ _ db.companies surv
            (hmem surv (List.mem_cons_self _ _)).1 (List.Nodup.of_map _ hids) ?_ ?_
          · have hcont : (((d0 :: drest).map (fun x => x.id)).contains surv.id) = false := by
              rw [List.contains_eq_any_beq, List.any_eq_false]
              intro i hi
              rcases List.mem_map.mp hi with ⟨d, hd, hdi⟩
              subst hdi
              intro hEq
              exact hsurvne d hd (by simpa using hEq)
            rw [hcont]
            simp only [Bool.false_eq_true, if_false, beq_self_eq_true, if_true]
            have hk : ((d0 :: drest).foldl merge_company_data surv).kvk_number
                = some k := by
              rw [foldl_merge_kvk]
              exact (hmem surv (List.mem_cons_self _ _)).2
            show Option.filter _ _ = _
            rw [Option.filter_some]
            rw [if_pos (by simpa using hk)]
          · intro c hc hcne
            by_cases hcont : (((d0 :: drest).map (fun x => x.id)).contains c.id) = true
            · rw [if_pos hcont]
              rfl
            · rw [if_neg hcont]
              have hcsid : (c.id == surv.id) = false := by
                refine beq_eq_false_iff_ne.mpr ?_
                intro hEq
                exact hcne (id_inj hids hc (hmem surv (List.mem_cons_self _ _)).1 hEq)
              rw [hcsid]
              simp only [Bool.false_eq_true, if_false]
              have hck : ¬c.kvk_number = some k := by
                intro hck
                have hcg : c ∈ List.insertionSort createdLE (gfilter k db.companies) :=
                  (List.mem_insertionSort _).mpr (mem_gfilter.mpr ⟨hc, hck⟩)
                rw [hg] at hcg
                rcases List.mem_cons.mp hcg with h | h
                · exact hcne h
                · rcases List.mem_map.mp (List.mem_map_of_mem (fun x => x.id) h)
                    with ⟨d, hd, hdi⟩
                  have : (((d0 :: drest).map (fun x => x.id)).contains c.id) = true := by
                    rw [List.contains_eq_any_beq, List.any_eq_true]
                    exact ⟨c.id, List.mem_map_of_mem _ h, by simp⟩
                  exact hcont this
              show Option.filter _ _ = _
              rw [Option.filter_some]
              rw [if_neg (by simpa using hck)]

/-- After processing its own group, every vacancy that pointed at one of
the deleted duplicates points at the survivor. -/
theorem processKvk_vac_self (db : DedupDB) (k : String) (surv d0 : CompanyRow)
    (drest : List CompanyRow)
    (hids : (db.companies.map (fun c => c.id)).Nodup)
    (hg : List.insertionSort createdLE (gfilter k db.companies) = surv :: d0 :: drest)
    (v : VacancyRow) (hv : v ∈ db.vacancies) (d : CompanyRow) (hd : d ∈ d0 :: drest)
    (hvc : v.company_id = some d.id) :
    { v with company_id := some surv.id } ∈ (processKvk db k).1.vacancies := by
  obtain ⟨hmem, hgnodup, hsurvne, hdidn⟩ := group_facts db k surv d0 drest hids hg
  rw [processKvk_eq db k surv d0 drest hg]
  simp only [processFold_eq]
  exact mem_foldl_reassign_target surv (d0 :: drest) db.vacancies v d hd hv hvc
    hsurvne hdidn

/-- The deletion count of one processed group is the number of
duplicates. -/
theorem processKvk_count_self (db : DedupDB) (k : String) (surv d0 : CompanyRow)
    (drest : List CompanyRow)
    (hg : List.insertionSort createdLE (gfilter k db.companies) = surv :: d0 :: drest) :
    (processKvk db k).2 = (d0 :: drest).length := by
  rw [processKvk_eq db k surv d0 drest hg]
  simp only [processFold_eq]
  omega

theorem mergeStep_ids_nodup (st : DedupDB × Nat) (k : String)
    (h : (st.1.companies.map (fun c => c.id)).Nodup) :
    (((mergeStep st k).1.companies.map (fun c => c.id)).Nodup) :=
  (processKvk_ids_sublist st.1 k).nodup h

theorem foldl_mergeStep_ids_nodup (ks : List String) : ∀ (st : DedupDB × Nat),
    (st.1.companies.map (fun c => c.id)).Nodup →
    (((ks.foldl mergeStep st).1.companies.map (fun c => c.id)).Nodup) := by
  induction ks with
  | nil => intro st h; exact h
  | cons k rest ih =>
      intro st h
      rw [List.foldl_cons]
      exact ih _ (mergeStep_ids_nodup st k h)

theorem foldl_mergeStep_count (ks : List String) : ∀ (st : DedupDB × Nat),
    (st.1.companies.map (fun c => c.id)).Nodup →
    (ks.foldl mergeStep st).1.companies.length + (ks.foldl mergeStep st).2
      = st.1.companies.length + st.2 := by
  induction ks with
  | nil => intro st _; rfl
  | cons k rest ih =>
      intro st h
      rw [List.foldl_cons]
      rw [ih _ (mergeStep_ids_nodup st k h)]
      have := processKvk_count st.1 k h
      rw [mergeStep]
      dsimp only
      omega

theorem foldl_mergeStep_gfilter (ks : List String) : ∀ (st : DedupDB × Nat) (k : String),
    k ∉ ks → (st.1.companies.map (fun c => c.id)).Nodup →
    gfilter k (ks.foldl mergeStep st).1.companies = gfilter k st.1.companies := by
  induction ks with
  | nil => intro st k _ _; rfl
  | cons kp rest ih =>
      intro st k hk h
      rw [List.foldl_cons]
      have hne : k ≠ kp := fun hEq => hk (hEq ▸ List.mem_cons_self _ _)
      rw [ih _ k (fun hm => hk (List.mem_cons_of_mem _ hm)) (mergeStep_ids_nodup st kp h)]
      exact processKvk_gfilter_other st.1 kp k hne h

theorem foldl_mergeStep_vac_frame (ks : List String) : ∀ (st : DedupDB × Nat) (k : String),
    k ∉ ks → (st.1.companies.map (fun c => c.id)).Nodup →
    ∀ v ∈ st.1.vacancies, ∀ c ∈ st.1.companies, c.kvk_number = some k →
    v.company_id = some c.id →
    v ∈ (ks.foldl mergeStep st).1.vacancies := by
  induction ks with
  | nil => intro st k _ _ v hv _ _ _ _; exact hv
  | cons kp rest ih =>
      intro st k hk h v hv c hc hck hvc
      rw [List.foldl_cons]
      have hne : k ≠ kp := fun hEq => hk (hEq ▸ List.mem_cons_self _ _)
      have hv' : v ∈ (mergeStep st kp).1.vacancies :=
        processKvk_vac_frame st.1 kp k hne h v hv c hc hck hvc
      have hc' : c ∈ (mergeStep st kp).1.companies := by
        have hcg : c ∈ gfilter k (mergeStep st kp).1.companies := by
          rw [show (mergeStep st kp).1 = (processKvk st.1 kp).1 from rfl]
          rw [processKvk_gfilter_other st.1 kp k hne h]
          exact mem_gfilter.mpr ⟨hc, hck⟩
        exact (mem_gfilter.mp hcg).1
      exact ih _ k (fun hm => hk (List.mem_cons_of_mem _ hm))
        (mergeStep_ids_nodup st kp h) v hv' c hc' hck hvc

theorem foldl_mergeStep_main (ks : List String) : ∀ (st : DedupDB × Nat) (k : String)
    (surv d0 : CompanyRow) (drest : List CompanyRow),
    k ∈ ks → ks.Nodup → (st.1.companies.map (fun c => c.id)).Nodup →
    List.insertionSort createdLE (gfilter k st.1.companies) = surv :: d0 :: drest →
    (gfilter k (ks.foldl mergeStep st).1.companies
      = [(d0 :: drest).foldl merge_company_data surv]) ∧
    (∀ v ∈ st.1.vacancies, ∀ d ∈ d0 :: drest, v.company_id = some d.id →
      { v with company_id := some surv.id } ∈ (ks.foldl mergeStep st).1.vacancies) := by
  induction ks with
  | nil => intro st k surv d0 drest hk; cases hk
  | cons kp rest ih =>
      intro st k surv d0 drest hk hnd hids hg
      rw [List.foldl_cons]
      rcases List.mem_cons.mp hk with hkk | hkk
      · subst hkk
        have hknotin : k ∉ rest := (List.nodup_cons.mp hnd).1
        have hids' := mergeStep_ids_nodup st k hids
        have hself := processKvk_gfilter_self st.1 k surv d0 drest hids hg
        constructor
        · rw [foldl_mergeStep_gfilter rest _ k hknotin hids']
          exact hself
        · intro v hv d hd hvc
          have hv' := processKvk_vac_self st.1 k surv d0 drest hids hg v hv d hd hvc
          set M := (d0 :: drest).foldl merge_company_data surv with hM
          have hMmem : M ∈ (mergeStep st k).1.companies := by
            have : M ∈ gfilter k (mergeStep st k).1.companies := by
              rw [show (mergeStep st k).1 = (processKvk st.1 k).1 from rfl, hself]
              exact List.mem_cons_self _ _
            exact (mem_gfilter.mp this).1
          have hMk : M.kvk_number = some k := by
            rw [hM, foldl_merge_kvk]
            have hsurvg : surv ∈ List.insertionSort createdLE (gfilter k st.1.companies) := by
              rw [hg]; exact List.mem_cons_self _ _
            exact (mem_gfilter.mp ((List.mem_insertionSort _).mp hsurvg)).2
          have hMid : some surv.id = some M.id := by
            rw [hM, foldl_merge_id]
          exact foldl_mergeStep_vac_frame rest _ k hknotin hids'
            { v with company_id := some surv.id } hv' M hMmem hMk hMid
      · have hne : k ≠ kp := by
          intro hEq
          subst hEq
          exact (List.nodup_cons.mp hnd).1 hkk
        have hids' := mergeStep_ids_nodup st kp hids
        have hgf : gfilter k (mergeStep st kp).1.companies = gfilter k st.1.companies :=
          processKvk_gfilter_other st.1 kp k hne hids
        have hg' : List.insertionSort createdLE (gfilter k (mergeStep st kp).1.companies)
            = surv :: d0 :: drest := by rw [hgf]; exact hg
        have IH := ih (mergeStep st kp) k surv d0 drest hkk (List.nodup_cons.mp hnd).2
          hids' hg'
        refine ⟨IH.1, ?_⟩
        intro v hv d hd hvc
        have hdmem : d ∈ st.1.companies ∧ d.kvk_number = some k := by
          have : d ∈ List.insertionSort createdLE (gfilter k st.1.companies) := by
            rw [hg]; exact List.mem_cons_of_mem _ hd
          exact mem_gfilter.mp ((List.mem_insertionSort _).mp this)
        have hv' : v ∈ (mergeStep st kp).1.vacancies :=
          processKvk_vac_frame st.1 kp k hne hids v hv d hdmem.1 hdmem.2 hvc
        exact IH.2 v hv' d hd hvc

/-- C8: for every KvK number held by at least two company records, the
batch merge keeps the record with the smallest creation time as survivor
(the head of the group ordered by `created_at`); the surviving record's
merge fields each hold the first non-null value in survivor-then-duplicates
creation order (the survivor's set values are never overwritten, each null
is filled from the oldest duplicate providing a value); every vacancy that
pointed at a merged record points at the survivor afterwards; the merged
records are deleted (only the survivor remains in the group); and the
returned count is the total number of deleted records. -/
theorem C8_merge_by_kvk (db : DedupDB) (k : String)
    (hids : (db.companies.map (fun c => c.id)).Nodup)
    (hk : 2 ≤ (gfilter k db.companies).length) :
    ∃ surv dups,
      List.insertionSort createdLE (gfilter k db.companies) = surv :: dups ∧
      dups ≠ [] ∧
      (∀ c ∈ gfilter k db.companies, surv.created_at ≤ c.created_at) ∧
      (gfilter k (merge_companies_by_kvk db).1.companies
        = [dups.foldl merge_company_data surv]) ∧
      ((dups.foldl merge_company_data surv).id = surv.id ∧
       (dups.foldl merge_company_data surv).sbi_codes
         = firstSome ((surv :: dups).map (fun c => c.sbi_codes)) ∧
       (dups.foldl merge_company_data surv).employee_range
         = firstSome ((surv :: dups).map (fun c => c.employee_range)) ∧
       (dups.foldl merge_company_data surv).revenue_range
         = firstSome ((surv :: dups).map (fun c => c.revenue_range)) ∧
       (dups.foldl merge_company_data surv).entity_count
         = firstSome ((surv :: dups).map (fun c => c.entity_count)) ∧
       (dups.foldl merge_company_data surv).enrichment_data
         = firstSome ((surv :: dups).map (fun c => c.enrichment_data)) ∧
       (dups.foldl merge_company_data surv).kvk_data
         = firstSome ((surv :: dups).map (fun c => c.kvk_data)) ∧
       (dups.foldl merge_company_data surv).company_info_data
         = firstSome ((surv :: dups).map (fun c => c.company_info_data))) ∧
      (∀ v ∈ db.vacancies, ∀ d ∈ dups, v.company_id = some d.id →
        { v with company_id := some surv.id }
          ∈ (merge_companies_by_kvk db).1.vacancies) ∧
      ((merge_companies_by_kvk db).2
        = db.companies.length - (merge_companies_by_kvk db).1.companies.length) := by
  have hlen : (List.insertionSort createdLE (gfilter k db.companies)).length
      = (gfilter k db.companies).length := List.length_insertionSort _ _
  obtain ⟨surv, d0, drest, hg⟩ : ∃ surv d0 drest,
      List.insertionSort createdLE (gfilter k db.companies) = surv :: d0 :: drest := by
    cases hs : List.insertionSort createdLE (gfilter k db.companies) with
    | nil => rw [hs] at hlen; simp at hlen; omega
    | cons a t =>
        cases t with
        | nil => rw [hs] at hlen; simp at hlen; omega
        | cons b t' => exact ⟨a, b, t', rfl⟩
  have hkmem : k ∈ duplicateKvks db := by
    rw [duplicateKvks, List.mem_filter]
    constructor
    · rw [mem_dedupKeys]
      have : 0 < (gfilter k db.companies).length := by omega
      rcases List.exists_mem_of_length_pos this with ⟨c, hc⟩
      rcases mem_gfilter.mp hc with ⟨hcm, hck⟩
      exact List.mem_filterMap.mpr ⟨c, hcm, hck⟩
    · have : db.companies.countP (fun c => c.kvk_number == some k)
          = (gfilter k db.companies).length := List.countP_eq_length_filter _ _
      simpa [this] using hk
  have hmrg : merge_companies_by_kvk db = (duplicateKvks db).foldl mergeStep (db, 0) :=
    rfl
  have hmain := foldl_mergeStep_main (duplicateKvks db) (db, 0) k surv d0 drest
    hkmem (nodup_duplicateKvks db) hids hg
  refine ⟨surv, d0 :: drest, hg, by simp, ?_, ?_, ?_, ?_, ?_⟩
  · intro c hc
    have hsorted : List.Sorted createdLE
        (List.insertionSort createdLE (gfilter k db.companies)) :=
      List.sorted_insertionSort _ _
    rw [hg] at hsorted
    have hcm : c ∈ surv :: d0 :: drest := by
      rw [← hg]
      exact (List.mem_insertionSort _).mpr hc
    rcases List.mem_cons.mp hcm with h | h
    · rw [h]
    · exact List.rel_of_sorted_cons hsorted c h
  · rw [hmrg]
    exact hmain.1
  · refine ⟨foldl_merge_id _ _, ?_, ?_, ?_, ?_, ?_, ?_, ?_⟩
    · exact foldl_merge_field (fun c => c.sbi_codes)
        (fun s d => by simp only [merge_company_data]; cases s.sbi_codes <;> rfl) _ _
    · exact foldl_merge_field (fun c => c.employee_range)
        (fun s d => by simp only [merge_company_data]; cases s.employee_range <;> rfl) _ _
    · exact foldl_merge_field (fun c => c.revenue_range)
        (fun s d => by simp only [merge_company_data]; cases s.revenue_range <;> rfl) _ _
    · exact foldl_merge_field (fun c => c.entity_count)
        (fun s d => by simp only [merge_company_data]; cases s.entity_count <;> rfl) _ _
    · exact foldl_merge_field (fun c => c.enrichment_data)
        (fun s d => by simp only [merge_company_data]; cases s.enrichment_data <;> rfl) _ _
    · exact foldl_merge_field (fun c => c.kvk_data)
        (fun s d => by simp only [merge_company_data]; cases s.kvk_data <;> rfl) _ _
    · exact foldl_merge_field (fun c => c.company_info_data)
        (fun s d => by simp only [merge_company_data]; cases s.company_info_data <;> rfl) _ _
  · intro v hv d hd hvc
    rw [hmrg]
    exact hmain.2 v hv d hd hvc
  · have hcount := foldl_mergeStep_count (duplicateKvks db) (db, 0) hids
    have hfst : ((db, (0 : Nat)).1) = db := rfl
    have hsnd : ((db, (0 : Nat)).2) = 0 := rfl
    rw [hfst, hsnd] at hcount
    rw [hmrg]
    omega

/-- A concrete two-table database with one duplicated KvK number. -/
def c8db : DedupDB :=
  { companies :=
      [ { id := 1
          kvk_number := some "123"
          created_at := 20
          sbi_codes := some (JVal.list [JVal.str "62"])
          employee_range := none
          revenue_range := none
          entity_count := none
          enrichment_data := none
          kvk_data := none
          company_info_data := none },
        { id := 2
          kvk_number := some "123"
          created_at := 10
          sbi_codes := none
          employee_range := some (JVal.str "10-49")
          revenue_range := none
          entity_count := none
          enrichment_data := none
          kvk_data := none
          company_info_data := none },
        { id := 3
          kvk_number := some "999"
          created_at := 5
          sbi_codes := none
          employee_range := none
          revenue_range := none
          entity_count := none
          enrichment_data := none
          kvk_data := none
          company_info_data := none } ]
    vacancies :=
      [ { id := 100, company_id := some 1 },
        { id := 101, company_id := some 3 },
        { id := 102, company_id := none } ] }

/-- Witness for C8 on `c8db` and KvK number "123". -/
theorem C8_merge_by_kvk_witness :
    ∃ surv dups,
      List.insertionSort createdLE (gfilter "123" c8db.companies) = surv :: dups ∧
      dups ≠ [] ∧
      (∀ c ∈ gfilter "123" c8db.companies, surv.created_at ≤ c.created_at) ∧
      (gfilter "123" (merge_companies_by_kvk c8db).1.companies
        = [dups.foldl merge_company_data surv]) ∧
      ((dups.foldl merge_company_data surv).id = surv.id ∧
       (dups.foldl merge_company_data surv).sbi_codes
         = firstSome ((surv :: dups).map (fun c => c.sbi_codes)) ∧
       (dups.foldl merge_company_data surv).employee_range
         = firstSome ((surv :: dups).map (fun c => c.employee_range)) ∧
       (dups.foldl merge_company_data surv).revenue_range
         = firstSome ((surv :: dups).map (fun c => c.revenue_range)) ∧
       (dups.foldl merge_company_data surv).entity_count
         = firstSome ((surv :: dups).map (fun c => c.entity_count)) ∧
       (dups.foldl merge_company_data surv).enrichment_data
         = firstSome ((surv :: dups).map (fun c => c.enrichment_data)) ∧
       (dups.foldl merge_company_data surv).kvk_data
         = firstSome ((surv :: dups).map (fun c => c.kvk_data)) ∧
       (dups.foldl merge_company_data surv).company_info_data
         = firstSome ((surv :: dups).map (fun c => c.company_info_data))) ∧
      (∀ v ∈ c8db.vacancies, ∀ d ∈ dups, v.company_id = some d.id →
        { v with company_id := some surv.id }
          ∈ (merge_companies_by_kvk c8db).1.vacancies) ∧
      ((merge_companies_by_kvk c8db).2
        = c8db.companies.length - (merge_companies_by_kvk c8db).1.companies.length) :=
  C8_merge_by_kvk c8db "123" (by decide) (by decide)
